import Mathlib

/-!
# Verification of the redis-clone server (`server.py`)

Shallow embedding of the streaming RESP parser, the reply encoders, the
command dispatcher with lazy expiration, and the snapshot persistence of
`src/server.py`, together with theorems settling the frozen claims.

Modelling conventions:
* Python `bytes` and `str` are both modelled as `List Nat` (one entry per
  byte; string literals in the source are ASCII).  `.decode()` is thus the
  identity and `len` is the list length.
* `time.time()` and expiry timestamps are rationals (`ℚ`), standing in for
  Python floats.
* The global dict `data` is an association list threaded explicitly through
  each operation; dict assignment replaces in place, deletion removes the
  entry, iteration follows insertion order, as in CPython.
* Python exceptions that the dispatcher can raise (the `RuntimeError` from
  mutating `data` while iterating it in KEYS) surface as `Except.error`.
-/

/-- Byte list of an ASCII Lean string literal. -/
def bytes (s : String) : List Nat := s.data.map Char.toNat

abbrev Bytes := List Nat

/-! ## Python slicing and `bytes.find` primitives -/

/-- Normalisation of a Python slice bound: negative indices count from the
end (clamped at 0), nonnegative ones are clamped at the length. -/
def pyIdx (n : Nat) (i : Int) : Nat :=
  if i < 0 then ((n : Int) + i).toNat else min i.toNat n

/-- Python slice `l[a:b]` (step 1). -/
def pySlice (l : Bytes) (a b : Int) : Bytes :=
  (l.take (pyIdx l.length b)).drop (pyIdx l.length a)

/-- Index of the first occurrence of the two-byte pattern `\r\n` (13, 10),
as in `bytes.find(b"\r\n")`; `none` for Python's `-1`. -/
def findCRLF : Bytes → Option Nat
  | [] => none
  | c :: r => if c = 13 ∧ r.head? = some 10 then some 0 else (findCRLF r).map (· + 1)

/-- `bytes.find(b"\r\n", start)`: the start bound is normalised like a slice
bound, and the returned index is absolute. -/
def pyFindFrom (buf : Bytes) (start : Int) : Option Nat :=
  (findCRLF (buf.drop (pyIdx buf.length start))).map (· + pyIdx buf.length start)

/-! ## Python `int()` on a byte string -/

/-- ASCII whitespace stripped by Python `int()`. -/
def isPyWs (c : Nat) : Bool := c = 32 || c = 9 || c = 10 || c = 13 || c = 11 || c = 12

/-- Strip leading and trailing whitespace. -/
def stripWs (l : Bytes) : Bytes :=
  ((l.dropWhile isPyWs).reverse.dropWhile isPyWs).reverse

def isDigitB (c : Nat) : Bool := decide (48 ≤ c ∧ c ≤ 57)

/-! Digits after the first one, allowing single underscores between digits
(Python's numeric-literal rule for `int()`); `digitsValUnd` is the state
just after an underscore, where only a digit may follow. -/
mutual

def digitsValAux : Bytes → Nat → Option Nat
  | [], acc => some acc
  | c :: r, acc =>
    if c = 95 then digitsValUnd r acc
    else if isDigitB c then digitsValAux r (acc * 10 + (c - 48)) else none

def digitsValUnd : Bytes → Nat → Option Nat
  | [], _ => none
  | d :: r2, acc => if isDigitB d then digitsValAux r2 (acc * 10 + (d - 48)) else none

end

/-- A nonempty digit string (with embedded underscores) to its value. -/
def digitsVal : Bytes → Option Nat
  | [] => none
  | c :: r => if isDigitB c then digitsValAux r (c - 48) else none

/-- Python `int(s)` for a byte string `s`: optional surrounding whitespace,
optional sign, nonempty digits; `none` models `ValueError`. -/
def pyInt (l : Bytes) : Option Int :=
  match stripWs l with
  | 43 :: r => (digitsVal r).map (fun n => (n : Int))
  | 45 :: r => (digitsVal r).map (fun n => -(n : Int))
  | r => (digitsVal r).map (fun n => (n : Int))

/-- Value of a digit run under the base-10 fold. -/
def digitsFold (acc : Nat) (l : Bytes) : Nat := l.foldl (fun a c => a * 10 + (c - 48)) acc


/-! ## Python `str.split()` (no separator: split on whitespace runs) -/

def pySplitGo : Bytes → Bytes → List Bytes
  | [], cur => if cur = [] then [] else [cur.reverse]
  | c :: r, cur =>
    if isPyWs c then
      (if cur = [] then pySplitGo r [] else cur.reverse :: pySplitGo r [])
    else pySplitGo r (c :: cur)

def pySplit (l : Bytes) : List Bytes := pySplitGo l []

/-! ## Streaming RESP decoder (`RESPParser`)

Each method returns the parse result together with the new buffer content,
making the mutation of `self.buffer` explicit. -/

/-- `RESPParser._parse_bulk_string_at(start)`: parse one `$<len>\r\n<bytes>..`
element at (Python) index `start` of the buffer.  Returns the element and the
index just past it. -/
def parseBulkAt (buf : Bytes) (start : Int) : Option (Bytes × Int) :=
  if start ≥ (buf.length : Int) ∨ pySlice buf start (start + 1) ≠ [36] then none
  else
    match pyFindFrom buf start with
    | none => none
    | some e =>
      match pyInt (pySlice buf (start + 1) (e : Int)) with
      | none => none
      | some len =>
        let dataStart : Int := (e : Int) + 2
        let dataEnd : Int := dataStart + len
        if (buf.length : Int) < dataEnd + 2 then none
        else some (pySlice buf dataStart dataEnd, dataEnd + 2)

/-- The `for _ in range(count)` loop of `_parse_array`, accumulating parsed
elements (`args.append`) and the running position. -/
def parseElems (buf : Bytes) : Nat → Int → List Bytes → Option (List Bytes × Int)
  | 0, pos, acc => some (acc, pos)
  | n + 1, pos, acc =>
    match parseBulkAt buf pos with
    | none => none
    | some (v, p) => parseElems buf n p (acc ++ [v])

/-- `RESPParser._parse_array`: result and new buffer. -/
def parseArray (buf : Bytes) : Option (List Bytes) × Bytes :=
  match findCRLF buf with
  | none => (none, buf)
  | some e =>
    match pyInt (pySlice buf 1 (e : Int)) with
    | none => (none, buf.drop 1)
    | some count =>
      match parseElems buf count.toNat ((e : Int) + 2) [] with
      | none => (none, buf)
      | some (args, pos) => (some args, pySlice buf pos (buf.length : Int))

/-- `RESPParser._parse_inline`: split the first `\r\n`-terminated line on
whitespace. -/
def parseInline (buf : Bytes) : Option (List Bytes) × Bytes :=
  match findCRLF buf with
  | none => (none, buf)
  | some e => (some (pySplit (buf.take e)), buf.drop (e + 2))

/-- `RESPParser.get_command`: one extraction attempt on the buffer. -/
def getCommand (buf : Bytes) : Option (List Bytes) × Bytes :=
  if buf.length = 0 then (none, buf)
  else if pySlice buf 0 1 = [42] then parseArray buf
  else parseInline buf

/-! ## Reply encoders -/

/-- Decimal ASCII digits of a natural number (as in Python `f"{n}"`). -/
def natAsciiAux : Nat → Nat → List Nat
  | 0, _ => []
  | fuel + 1, n => if n < 10 then [48 + n] else natAsciiAux fuel (n / 10) ++ [48 + n % 10]

def natAscii (n : Nat) : List Nat := natAsciiAux (n + 1) n

/-- Decimal ASCII of an integer, with `-` sign for negatives. -/
def intAscii (i : Int) : List Nat :=
  if i < 0 then 45 :: natAscii i.natAbs else natAscii i.toNat

/-- `simple_string(msg)` = `+<msg>\r\n`. -/
def simpleString (m : Bytes) : Bytes := 43 :: m ++ [13, 10]

/-- `error(msg)` = `-<msg>\r\n`. -/
def errorReply (m : Bytes) : Bytes := 45 :: m ++ [13, 10]

/-- `integer(val)` = `:<val>\r\n`. -/
def integerReply (i : Int) : Bytes := 58 :: intAscii i ++ [13, 10]

/-- `bulk_string(val)`: nil marker for `None`, else `$<len>\r\n<val>\r\n`. -/
def bulkReply : Option Bytes → Bytes
  | none => bytes "$-1\r\n"
  | some v => 36 :: natAscii v.length ++ [13, 10] ++ v ++ [13, 10]

/-- One `$<len>\r\n<payload><t1><t2>` frame with an arbitrary two-byte tail
in place of the `\r\n` terminator (the decoder never inspects those bytes). -/
def bulkFrame (v : Bytes) (t1 t2 : Nat) : Bytes :=
  36 :: natAscii v.length ++ [13, 10] ++ v ++ [t1, t2]

/-- Array-of-bulk-strings encoding with per-element two-byte tails. -/
def arrayFrameT (vs : List Bytes) (ts : List (Nat × Nat)) : Bytes :=
  42 :: natAscii vs.length ++ [13, 10] ++
    (List.zipWith (fun v t => bulkFrame v t.1 t.2) vs ts).flatten

/-- The canonical array-of-bulk-strings encoding: the well-formed array-form
command of the wire protocol, and also exactly the KEYS reply of
`handle_command` (`*<n>\r\n` then `$<len>\r\n<k>\r\n` per element). -/
def arrayOfBulk (vs : List Bytes) : Bytes :=
  42 :: natAscii vs.length ++ [13, 10] ++ (vs.map (fun v => bulkFrame v 13 10)).flatten

/-- The per-element frames of an array encoding. -/
def zipFrames (vs : List Bytes) (ts : List (Nat × Nat)) : List Bytes :=
  List.zipWith (fun v t => bulkFrame v t.1 t.2) vs ts


/-! ## The key-value store and lazy expiration -/

/-- An entry of the dict `data`: `(value, expires_at)`. -/
abbrev Entry := Bytes × Option ℚ

/-- The dict `data`: an insertion-ordered association list with unique keys
in every state the program produces. -/
abbrev Store := List (Bytes × Entry)

/-- Dict lookup `data[k]` / membership `k in data` (first matching key). -/
def storeGet? : Store → Bytes → Option Entry
  | [], _ => none
  | (k', e) :: r, k => if k' = k then some e else storeGet? r k

/-- Dict assignment `data[k] = e`: replace in place, else append. -/
def storeSet : Store → Bytes → Entry → Store
  | [], k, e => [(k, e)]
  | (k', e') :: r, k, e => if k' = k then (k, e) :: r else (k', e') :: storeSet r k e

/-- Dict deletion `del data[k]` / `data.pop(k, ...)` (first matching key). -/
def storeDel : Store → Bytes → Store
  | [], _ => []
  | (k', e') :: r, k => if k' = k then r else (k', e') :: storeDel r k

/-- The Python condition `expires_at and now > expires_at` (note: a zero
timestamp is falsy, hence never counts as expired here). -/
def truthyPast (now : ℚ) : Option ℚ → Bool
  | none => false
  | some t => decide (t ≠ 0 ∧ now > t)

/-- `is_expired(key)`: missing keys count as expired; a (truthy) past expiry
deletes the key as a side effect. -/
def isExpired (now : ℚ) (st : Store) (k : Bytes) : Bool × Store :=
  match storeGet? st k with
  | none => (true, st)
  | some (_, ea) => if truthyPast now ea then (true, storeDel st k) else (false, st)

/-- `get_value(key)`: `if is_expired(key): return None` (the store after the
possibly-deleting check is threaded through), else `data[key][0]`. -/
def getValue (now : ℚ) (st : Store) (k : Bytes) : Option Bytes × Store :=
  let r := isExpired now st k
  if r.1 then (none, r.2) else ((storeGet? r.2 k).map Prod.fst, r.2)

/-- `set_value(key, value, expires_at=None)`. -/
def setValue (st : Store) (k v : Bytes) (ea : Option ℚ) : Store := storeSet st k (v, ea)

/-- Python `int()` applied to a float (here: rational): truncation toward
zero.  `q.num.div q.den` is T-division on a fraction in lowest terms with
positive denominator. -/
def pyTrunc (q : ℚ) : Int := Int.tdiv q.num (q.den : Int)

/-- `str.upper()` (ASCII range). -/
def upperByte (c : Nat) : Nat := if 97 ≤ c ∧ c ≤ 122 then c - 32 else c

def upper (s : Bytes) : Bytes := s.map upperByte

/-! ## The command dispatcher (`handle_command`) -/

/-- The one Python exception the dispatcher can raise: `RuntimeError:
dictionary changed size during iteration`, from KEYS deleting entries of
`data` while iterating `data.keys()`. -/
inductive PyErr where
  | runtimeError
deriving DecidableEq, Repr

deriving instance DecidableEq for Except

/-- Line 179 of `handle_command` (DEL): the discarded
`sum(1 for k in args[1:] if k in data and not data.pop(k, None) is None or ...)`.
Its side effect pops every listed key that is present; the count it builds is
then overwritten with 0. -/
def delLine179 : Store → List Bytes → Nat × Store
  | st, [] => (0, st)
  | st, k :: ks =>
    if (storeGet? st k).isSome then
      let r := delLine179 (storeDel st k) ks
      (r.1 + 1, r.2)
    else delLine179 st ks

/-- The explicit DEL loop (lines 181-184), run after line 179 already
popped the keys. -/
def delLoop : Store → List Bytes → Nat × Store
  | st, [] => (0, st)
  | st, k :: ks =>
    if (storeGet? st k).isSome then
      let r := delLoop (storeDel st k) ks
      (r.1 + 1, r.2)
    else delLoop st ks

/-- The KEYS comprehension `[k for k in data.keys() if not is_expired(k)]`.
CPython's dict iterator compares the dict's current size with its size at
iterator creation (`orig`) on every step, raising `RuntimeError` once
`is_expired` has deleted an entry; the size check also runs on the final
(exhausting) step. -/
def keysFilter (now : ℚ) (orig : Nat) : List Bytes → Store → Except PyErr (List Bytes × Store)
  | [], st => if st.length ≠ orig then .error .runtimeError else .ok ([], st)
  | k :: ks, st =>
    if st.length ≠ orig then .error .runtimeError
    else
      let r := isExpired now st k
      match keysFilter now orig ks r.2 with
      | .error e => .error e
      | .ok (rest, stF) => .ok (if r.1 then rest else k :: rest, stF)

/-- `handle_command(args)`: reply bytes and resulting store, or the Python
exception escaping the dispatcher. -/
def handleCommand (now : ℚ) (st : Store) (args : List Bytes) : Except PyErr (Bytes × Store) :=
  match args with
  | [] => .ok (errorReply (bytes "ERR empty command"), st)
  | a0 :: rest =>
    let cmd := upper a0
    if cmd = bytes "PING" then .ok (simpleString (bytes "PONG"), st)
    else if cmd = bytes "SET" then
      if args.length < 3 then
        .ok (errorReply (bytes "ERR wrong number of arguments for " ++ [39] ++ bytes "SET" ++ [39]), st)
      else .ok (simpleString (bytes "OK"), setValue st (args.getD 1 []) (args.getD 2 []) none)
    else if cmd = bytes "GET" then
      if args.length < 2 then
        .ok (errorReply (bytes "ERR wrong number of arguments for " ++ [39] ++ bytes "GET" ++ [39]), st)
      else
        let r := getValue now st (args.getD 1 [])
        .ok (bulkReply r.1, r.2)
    else if cmd = bytes "EXPIRE" then
      if args.length < 3 then
        .ok (errorReply (bytes "ERR wrong number of arguments for " ++ [39] ++ bytes "EXPIRE" ++ [39]), st)
      else
        match pyInt (args.getD 2 []) with
        | none => .ok (errorReply (bytes "ERR value is not an integer"), st)
        | some secs =>
          let k := args.getD 1 []
          if (storeGet? st k).isNone then .ok (integerReply 0, st)
          else
            let r := isExpired now st k
            if r.1 then .ok (integerReply 0, r.2)
            else
              let v := ((storeGet? r.2 k).getD ([], none)).1
              .ok (integerReply 1, storeSet r.2 k (v, some (now + (secs : ℚ))))
    else if cmd = bytes "TTL" then
      if args.length < 2 then
        .ok (errorReply (bytes "ERR wrong number of arguments for " ++ [39] ++ bytes "TTL" ++ [39]), st)
      else
        let k := args.getD 1 []
        match storeGet? st k with
        | none => .ok (integerReply (-2), st)
        | some (_, none) => .ok (integerReply (-1), st)
        | some (_, some ea) =>
          let remaining : Int := pyTrunc (ea - now)
          if remaining < 0 then .ok (integerReply (-2), storeDel st k)
          else .ok (integerReply remaining, st)
    else if cmd = bytes "DEL" then
      if args.length < 2 then
        .ok (errorReply (bytes "ERR wrong number of arguments for " ++ [39] ++ bytes "DEL" ++ [39]), st)
      else
        let r179 := delLine179 st rest
        let r := delLoop r179.2 rest
        .ok (integerReply (r.1 : Int), r.2)
    else if cmd = bytes "KEYS" then
      match keysFilter now st.length (st.map Prod.fst) st with
      | .error e => .error e
      | .ok (ks, st') => .ok (arrayOfBulk ks, st')
    else .ok (errorReply (bytes "ERR unknown command " ++ [39] ++ cmd ++ [39]), st)

/-! ## Persistence (`save_data` / `load_data`)

File I/O is abstracted: the snapshot content is the association list the
JSON object holds (JSON object keys are unique), and an absent file is
`none`. -/

/-- One snapshot record: key, value, optional expiry. -/
abbrev SnapRecord := Bytes × Bytes × Option ℚ

/-- `save_data`, returning the serialized snapshot content: entries with a
truthy past expiry are skipped. -/
def saveData (now : ℚ) : Store → List SnapRecord
  | [] => []
  | (k, (v, ea)) :: r =>
    if truthyPast now ea then saveData now r
    else (k, v, ea) :: saveData now r

/-- The insertion loop of `load_data` over the parsed records, starting from
the (empty) startup store. -/
def loadGo (now : ℚ) : List SnapRecord → Store → Store
  | [], st => st
  | (k, v, ea) :: r, st =>
    if truthyPast now ea then loadGo now r st
    else loadGo now r (storeSet st k (v, ea))

/-- `load_data`: absent file leaves the store empty; otherwise reinsert each
record unless its expiry is truthy and past. -/
def loadData (now : ℚ) : Option (List SnapRecord) → Store
  | none => []
  | some recs => loadGo now recs []

-- Smoke tests of the embedding on concrete byte strings.
example : getCommand (bytes "*1\r\n$4\r\nPING\r\n") = (some [bytes "PING"], []) := by decide
example : getCommand (bytes "*2\r\n$3\r\nGET\r\n$1\r\nk\r\nX") =
    (some [bytes "GET", bytes "k"], [88]) := by decide
example : getCommand (bytes "*2\r\n$3\r\nGET\r\n$1\r\nk") =
    (none, bytes "*2\r\n$3\r\nGET\r\n$1\r\nk") := by decide
example : getCommand (bytes "*x\r\nabc") = (none, bytes "x\r\nabc") := by decide
example : getCommand (bytes "*1\r\n$x\r\n$3\r\nfoo\r\n") =
    (none, bytes "*1\r\n$x\r\n$3\r\nfoo\r\n") := by decide
example : getCommand (bytes "PING extra\r\nrest") =
    (some [bytes "PING", bytes "extra"], bytes "rest") := by decide
example : getCommand (bytes "$3\r\nbar\r\n") = (some [bytes "$3"], bytes "bar\r\n") := by
  decide
example : pyInt (bytes " -42 ") = some (-42) := by decide
example : pyInt (bytes "1_0") = some 10 := by decide
example : pyInt (bytes "1__0") = none := by decide
example : pyInt (bytes "") = none := by decide
example : arrayOfBulk [bytes "GET", bytes "k"] = bytes "*2\r\n$3\r\nGET\r\n$1\r\nk\r\n" := by
  decide


-- Smoke tests of the dispatcher against hand-traced Python behaviour.
example : handleCommand 0 [] [bytes "PING"] = .ok (bytes "+PONG\r\n", []) := by decide
example : handleCommand 0 [] [bytes "set", bytes "k", bytes "v"] =
    .ok (bytes "+OK\r\n", [(bytes "k", (bytes "v", none))]) := by decide
example : handleCommand 0 [] [bytes "SET", bytes "k", bytes "v", bytes "x"] =
    .ok (bytes "+OK\r\n", [(bytes "k", (bytes "v", none))]) := by decide
example : handleCommand 5 [(bytes "k", (bytes "v", some 3))] [bytes "GET", bytes "k"] =
    .ok (bytes "$-1\r\n", []) := by decide
example : handleCommand 5 [(bytes "k", (bytes "v", some 0))] [bytes "GET", bytes "k"] =
    .ok (bytes "$1\r\nv\r\n", [(bytes "k", (bytes "v", some 0))]) := by decide
example : handleCommand 0 [(bytes "k", (bytes "v", none))] [bytes "TTL", bytes "k"] =
    .ok (bytes ":-1\r\n", [(bytes "k", (bytes "v", none))]) := by decide
example : handleCommand 0 [] [bytes "TTL", bytes "k"] = .ok (bytes ":-2\r\n", []) := by decide
example : handleCommand 0 [(bytes "k", (bytes "v", none))] [bytes "DEL", bytes "k"] =
    .ok (bytes ":0\r\n", []) := by decide
example : handleCommand 10 [(bytes "k", (bytes "v", some 5))] [bytes "KEYS"] =
    .error .runtimeError := by decide
example : handleCommand 0 [(bytes "k", (bytes "v", none))] [bytes "KEYS"] =
    .ok (bytes "*1\r\n$1\r\nk\r\n", [(bytes "k", (bytes "v", none))]) := by decide
example : handleCommand 0 [] [bytes "FOO"] =
    .ok (errorReply (bytes "ERR unknown command " ++ [39] ++ bytes "FOO" ++ [39]), []) := by
  decide
example : pyTrunc (mkRat (-1) 2) = 0 := by decide
example : pyTrunc (mkRat (-3) 2) = -1 := by decide
example : pyTrunc (-2) = -2 := by decide
example : loadData 10 (some [(bytes "k", bytes "v", some 0)]) =
    [(bytes "k", (bytes "v", some 0))] := by decide
example : saveData 10 [(bytes "a", (bytes "v", some 5)), (bytes "b", (bytes "w", none))] =
    [(bytes "b", bytes "w", none)] := by decide

/-! ## Auxiliary lemmas: slices, CRLF search, digits, `pyInt` -/

theorem pySlice_natCast (l : Bytes) (a b : Nat) :
    pySlice l (a : Int) (b : Int) = (l.take b).drop a := by
  unfold pySlice pyIdx
  have ha : ¬((a : Int) < 0) := by simp
  have hb : ¬((b : Int) < 0) := by simp
  rw [if_neg ha, if_neg hb, Int.toNat_natCast, Int.toNat_natCast]
  rcases le_total b l.length with h | h
  · rw [min_eq_left h]
    rcases le_total a l.length with h2 | h2
    · rw [min_eq_left h2]
    · have h3 : (l.take b).length ≤ a := le_trans (by simpa using min_le_left b l.length) h2
      rw [List.drop_eq_nil_of_le h3, min_eq_right h2,
          List.drop_eq_nil_of_le (by simpa using min_le_right b l.length)]
  · rw [min_eq_right h, List.take_length, List.take_of_length_le h]
    rcases le_total a l.length with h2 | h2
    · rw [min_eq_left h2]
    · rw [min_eq_right h2, List.drop_eq_nil_of_le le_rfl, List.drop_eq_nil_of_le h2]

/-- The workhorse slice lemma: a slice lying inside the middle block of a
three-block buffer. -/
theorem pySlice_mid (A l B : Bytes) (a b : Nat) (hb : b ≤ l.length) :
    pySlice (A ++ l ++ B) ((A.length + a : Nat) : Int) ((A.length + b : Nat) : Int) =
      (l.take b).drop a := by
  rw [pySlice_natCast]
  have h1 : (A ++ l ++ B).take (A.length + b) = A ++ l.take b := by
    rw [List.append_assoc, List.take_append_eq_append_take,
        List.take_of_length_le (by omega),
        show A.length + b - A.length = b by omega,
        List.take_append_eq_append_take,
        show b - l.length = 0 by omega,
        List.take_zero, List.append_nil]
  rw [h1, List.drop_append_eq_append_drop, List.drop_eq_nil_of_le (by omega),
      show A.length + a - A.length = a by omega, List.nil_append]

theorem findCRLF_none_of_no13 (l : Bytes) (h : ∀ c ∈ l, c ≠ 13) : findCRLF l = none := by
  induction l with
  | nil => rfl
  | cons c r ih =>
    have hc : c ≠ 13 := h c (by simp)
    have hr := ih (fun x hx => h x (by simp [hx]))
    simp [findCRLF, hc, hr]

theorem findCRLF_none_append13 (l : Bytes) (h : ∀ c ∈ l, c ≠ 13) :
    findCRLF (l ++ [13]) = none := by
  induction l with
  | nil => rfl
  | cons c r ih =>
    have hc : c ≠ 13 := h c (by simp)
    have hr := ih (fun x hx => h x (by simp [hx]))
    simp [findCRLF, hc, hr]

theorem findCRLF_app (x y : Bytes) (hx : findCRLF x = none) :
    findCRLF (x ++ 13 :: 10 :: y) = some x.length := by
  induction x with
  | nil => simp [findCRLF]
  | cons c r ih =>
    simp only [findCRLF] at hx
    by_cases hcond : c = 13 ∧ r.head? = some 10
    · rw [if_pos hcond] at hx; exact absurd hx (by simp)
    · rw [if_neg hcond] at hx
      have hr : findCRLF r = none := by
        cases h : findCRLF r with
        | none => rfl
        | some v => rw [h] at hx; exact absurd hx (by simp)
      have hcond2 : ¬(c = 13 ∧ (r ++ 13 :: 10 :: y).head? = some 10) := by
        cases r with
        | nil => simp
        | cons b r2 =>
          simp only [List.cons_append, List.head?_cons] at hcond ⊢
          exact hcond
      simp only [List.cons_append, findCRLF, List.append_eq]
      rw [if_neg hcond2, ih hr]
      simp

/-- Any `take` of a 13-free list with a single 13 appended has no CRLF. -/
theorem findCRLF_none_take (d : Bytes) (hd : ∀ c ∈ d, c ≠ 13) (j : Nat) :
    findCRLF ((d ++ [13]).take j) = none := by
  rcases le_or_lt j d.length with h | h
  · rw [List.take_append_of_le_length h]
    exact findCRLF_none_of_no13 _ (fun c hc => hd c (List.mem_of_mem_take hc))
  · rcases le_or_lt (d.length + 1) j with h2 | h2
    · rw [List.take_of_length_le (by simp; omega)]
      exact findCRLF_none_append13 d hd
    · have : j = d.length := by omega
      subst this
      rw [List.take_append_of_le_length le_rfl, List.take_length]
      exact findCRLF_none_of_no13 d hd

theorem natAsciiAux_digits (fuel n : Nat) : ∀ c ∈ natAsciiAux fuel n, 48 ≤ c ∧ c ≤ 57 := by
  induction fuel generalizing n with
  | zero => simp [natAsciiAux]
  | succ f ih =>
    intro c hc
    simp only [natAsciiAux] at hc
    by_cases h : n < 10
    · rw [if_pos h] at hc
      simp only [List.mem_singleton] at hc
      omega
    · rw [if_neg h] at hc
      rcases List.mem_append.1 hc with h1 | h1
      · exact ih (n / 10) c h1
      · simp only [List.mem_singleton] at h1
        have := Nat.mod_lt n (show 0 < 10 by norm_num)
        omega

theorem natAscii_digits (n : Nat) : ∀ c ∈ natAscii n, 48 ≤ c ∧ c ≤ 57 :=
  natAsciiAux_digits (n + 1) n

theorem natAsciiAux_ne_nil (fuel n : Nat) (h : 0 < fuel) : natAsciiAux fuel n ≠ [] := by
  cases fuel with
  | zero => omega
  | succ f =>
    simp only [natAsciiAux]
    by_cases h10 : n < 10
    · simp [h10]
    · simp [h10]

theorem natAscii_ne_nil (n : Nat) : natAscii n ≠ [] := natAsciiAux_ne_nil (n + 1) n (by omega)

theorem digitsValAux_all_digits (l : Bytes) (acc : Nat) (h : ∀ c ∈ l, 48 ≤ c ∧ c ≤ 57) :
    digitsValAux l acc = some (digitsFold acc l) := by
  induction l generalizing acc with
  | nil => rfl
  | cons c r ih =>
    have hc := h c (by simp)
    have hc95 : c ≠ 95 := by omega
    have hcd : isDigitB c = true := by simp only [isDigitB, decide_eq_true_eq]; omega
    have h1 : digitsValAux (c :: r) acc = digitsValAux r (acc * 10 + (c - 48)) := by
      simp [digitsValAux, hc95, hcd]
    rw [h1, ih (acc * 10 + (c - 48)) (fun x hx => h x (by simp [hx]))]
    simp only [digitsFold, List.foldl_cons]

theorem natAsciiAux_fold (fuel : Nat) : ∀ n acc, n ≤ fuel →
    digitsFold acc (natAsciiAux fuel n) = acc * 10 ^ (natAsciiAux fuel n).length + n := by
  induction fuel with
  | zero => intro n acc h; interval_cases n; simp [natAsciiAux, digitsFold]
  | succ f ih =>
    intro n acc h
    simp only [natAsciiAux]
    by_cases h10 : n < 10
    · simp only [if_pos h10, digitsFold, List.foldl_cons, List.foldl_nil,
        List.length_singleton, pow_one]
      omega
    · rw [if_neg h10]
      have hdiv : n / 10 ≤ f := by
        have := Nat.div_lt_self (show 0 < n by omega) (show 1 < 10 by norm_num)
        omega
      simp only [digitsFold, List.foldl_append, List.foldl_cons, List.foldl_nil,
        List.length_append, List.length_cons, List.length_nil]
      have hrec := ih (n / 10) acc hdiv
      simp only [digitsFold] at hrec
      rw [hrec]
      have hmod : 48 + n % 10 - 48 = n % 10 := by omega
      rw [hmod, pow_succ]
      have := Nat.div_add_mod n 10
      ring_nf
      omega

theorem digitsFold_natAscii (n : Nat) : digitsFold 0 (natAscii n) = n := by
  have := natAsciiAux_fold (n + 1) n 0 (by omega)
  simpa [natAscii] using this

theorem dropWhile_eq_self_of_all {p : Nat → Bool} (l : Bytes) (h : ∀ c ∈ l, p c = false) :
    l.dropWhile p = l := by
  cases l with
  | nil => rfl
  | cons c r => simp [List.dropWhile_cons, h c (by simp)]

theorem stripWs_eq_self (l : Bytes) (h : ∀ c ∈ l, isPyWs c = false) : stripWs l = l := by
  unfold stripWs
  rw [dropWhile_eq_self_of_all l h,
      dropWhile_eq_self_of_all l.reverse (fun c hc => h c (List.mem_reverse.1 hc)),
      List.reverse_reverse]

theorem pyInt_natAscii (n : Nat) : pyInt (natAscii n) = some (n : Int) := by
  have hd := natAscii_digits n
  have hnn := natAscii_ne_nil n
  have hstrip : stripWs (natAscii n) = natAscii n := by
    refine stripWs_eq_self _ (fun c hc => ?_)
    have := hd c hc
    simp only [isPyWs, Bool.or_eq_false_iff, decide_eq_false_iff_not]
    omega
  unfold pyInt
  rw [hstrip]
  cases hna : natAscii n with
  | nil => exact absurd hna hnn
  | cons c r =>
    have hc : 48 ≤ c ∧ c ≤ 57 := hd c (by rw [hna]; simp)
    have h43 : c ≠ 43 := by omega
    have h45 : c ≠ 45 := by omega
    have hcd : isDigitB c = true := by simp only [isDigitB, decide_eq_true_eq]; omega
    have hval : digitsVal (c :: r) = some n := by
      simp only [digitsVal, if_pos hcd]
      rw [digitsValAux_all_digits r (c - 48)
        (fun x hx => hd x (by rw [hna]; simp [hx]))]
      have : digitsFold (c - 48) r = digitsFold 0 (c :: r) := by
        simp [digitsFold]
      rw [this, ← hna, digitsFold_natAscii]
    split
    · rename_i r2 heq
      rw [List.cons.injEq] at heq
      omega
    · rename_i r2 heq
      rw [List.cons.injEq] at heq
      omega
    · rw [hval]
      rfl

/-! ## Parser correctness on encoded frames -/

theorem pySlice_exact (A l B : Bytes) :
    pySlice (A ++ l ++ B) (A.length : Int) ((A.length + l.length : Nat) : Int) = l := by
  have h := pySlice_mid A l B 0 l.length le_rfl
  simpa using h

theorem bulkFrame_length (v : Bytes) (t1 t2 : Nat) :
    (bulkFrame v t1 t2).length = (natAscii v.length).length + v.length + 5 := by
  simp [bulkFrame]
  omega

theorem no13_natAscii (n : Nat) : ∀ c ∈ natAscii n, c ≠ 13 := by
  intro c hc
  have := natAscii_digits n c hc
  omega

/-- Success of `_parse_bulk_string_at` on a complete frame (with arbitrary
tail bytes in terminator position) anywhere in the buffer. -/
theorem pyIdx_natCast (n a : Nat) (h : a ≤ n) : pyIdx n (a : Int) = a := by
  unfold pyIdx
  rw [if_neg (by simp), Int.toNat_natCast, min_eq_left h]

theorem pyFindFrom_natCast (buf : Bytes) (s : Nat) (h : s ≤ buf.length) :
    pyFindFrom buf (s : Int) = (findCRLF (buf.drop s)).map (· + s) := by
  unfold pyFindFrom
  simp only [pyIdx_natCast _ _ h]

/-- Success of `_parse_bulk_string_at` on a complete frame (with arbitrary
tail bytes in terminator position) anywhere in the buffer. -/
theorem parseBulkAt_ok (A v B : Bytes) (t1 t2 : Nat) :
    parseBulkAt (A ++ bulkFrame v t1 t2 ++ B) (A.length : Int) =
      some (v, ((A.length + (bulkFrame v t1 t2).length : Nat) : Int)) := by
  have hflen : (bulkFrame v t1 t2).length = (natAscii v.length).length + v.length + 5 :=
    bulkFrame_length v t1 t2
  have hbuflen : (A ++ bulkFrame v t1 t2 ++ B).length
      = A.length + ((bulkFrame v t1 t2).length + B.length) := by
    rw [List.append_assoc, List.length_append, List.length_append]
  -- the `$` byte at `start`
  have hdollar : pySlice (A ++ bulkFrame v t1 t2 ++ B) (A.length : Int)
      ((A.length : Int) + 1) = [36] := by
    have h1 : A ++ bulkFrame v t1 t2 ++ B
        = A ++ [36] ++ (natAscii v.length ++ [13, 10] ++ v ++ [t1, t2] ++ B) := by
      simp [bulkFrame]
    have h2 := pySlice_exact A [36] (natAscii v.length ++ [13, 10] ++ v ++ [t1, t2] ++ B)
    rw [← h1] at h2
    simpa using h2
  -- the CRLF terminating the length line
  have hfind : pyFindFrom (A ++ bulkFrame v t1 t2 ++ B) (A.length : Int)
      = some (A.length + ((natAscii v.length).length + 1)) := by
    rw [pyFindFrom_natCast _ _ (by omega)]
    have hdrop : (A ++ bulkFrame v t1 t2 ++ B).drop A.length
        = (36 :: natAscii v.length) ++ 13 :: 10 :: (v ++ [t1, t2] ++ B) := by
      rw [List.append_assoc, List.drop_left]
      simp [bulkFrame]
    rw [hdrop, findCRLF_app (36 :: natAscii v.length) _ ?_]
    · simp [Nat.add_comm]
    · refine findCRLF_none_of_no13 _ (fun c hc => ?_)
      rcases List.mem_cons.1 hc with h | h
      · omega
      · exact no13_natAscii v.length c h
  -- the digit slice parses to the declared length
  have hslice : pySlice (A ++ bulkFrame v t1 t2 ++ B) ((A.length : Int) + 1)
      ((A.length + ((natAscii v.length).length + 1) : Nat) : Int) = natAscii v.length := by
    have h1 : A ++ bulkFrame v t1 t2 ++ B
        = (A ++ [36]) ++ natAscii v.length ++ ([13, 10] ++ v ++ [t1, t2] ++ B) := by
      simp [bulkFrame]
    have h2 := pySlice_exact (A ++ [36]) (natAscii v.length)
      ([13, 10] ++ v ++ [t1, t2] ++ B)
    rw [← h1] at h2
    have e1 : ((A ++ [36]).length : Int) = (A.length : Int) + 1 := by simp
    have e2 : (A ++ [36]).length + (natAscii v.length).length
        = A.length + ((natAscii v.length).length + 1) := by simp; omega
    rw [e1, e2] at h2
    exact h2
  -- the payload slice
  have hpayload : pySlice (A ++ bulkFrame v t1 t2 ++ B)
      ((A.length + ((natAscii v.length).length + 3) : Nat) : Int)
      ((A.length + ((natAscii v.length).length + 3) + v.length : Nat) : Int) = v := by
    have h1 : A ++ bulkFrame v t1 t2 ++ B
        = (A ++ 36 :: natAscii v.length ++ [13, 10]) ++ v ++ ([t1, t2] ++ B) := by
      simp [bulkFrame]
    have h2 := pySlice_exact (A ++ 36 :: natAscii v.length ++ [13, 10]) v ([t1, t2] ++ B)
    rw [← h1] at h2
    have e1 : (A ++ 36 :: natAscii v.length ++ [13, 10]).length
        = A.length + ((natAscii v.length).length + 3) := by simp
    rw [e1] at h2
    exact h2
  -- assemble
  have hguard : ¬((A.length : Int) ≥ ((A ++ bulkFrame v t1 t2 ++ B).length : Int) ∨
      pySlice (A ++ bulkFrame v t1 t2 ++ B) (A.length : Int)
        ((A.length : Int) + 1) ≠ [36]) := by
    push_neg
    refine ⟨?_, hdollar⟩
    rw [hbuflen]
    push_cast
    omega
  simp only [parseBulkAt, if_neg hguard, hfind, hslice, pyInt_natAscii]
  rw [if_neg ?hlen]
  case hlen =>
    rw [hbuflen, hflen]
    push_cast
    omega
  have e1 : ((A.length + ((natAscii v.length).length + 1) : Nat) : Int) + 2 =
      ((A.length + ((natAscii v.length).length + 3) : Nat) : Int) := by
    push_cast; ring
  have e2 : ((A.length + ((natAscii v.length).length + 3) : Nat) : Int) + (v.length : Int) =
      ((A.length + ((natAscii v.length).length + 3) + v.length : Nat) : Int) := by
    push_cast; ring
  have e3 : ((A.length + ((natAscii v.length).length + 3) + v.length : Nat) : Int) + 2 =
      ((A.length + (bulkFrame v t1 t2).length : Nat) : Int) := by
    rw [hflen]; push_cast; ring
  rw [e1, e2, e3, hpayload]

theorem arrayFrameT_eq (vs : List Bytes) (ts : List (Nat × Nat)) :
    arrayFrameT vs ts = 42 :: natAscii vs.length ++ [13, 10] ++ (zipFrames vs ts).flatten :=
  rfl

theorem arrayOfBulk_eq_arrayFrameT (vs : List Bytes) :
    arrayOfBulk vs = arrayFrameT vs (vs.map (fun _ => (13, 10))) := by
  unfold arrayOfBulk arrayFrameT
  have h : List.zipWith (fun v t => bulkFrame v t.1 t.2) vs (vs.map (fun _ => (13, 10)))
      = vs.map (fun v => bulkFrame v 13 10) := by
    induction vs with
    | nil => rfl
    | cons v rest ih => simp only [List.map_cons, List.zipWith_cons_cons, ih]
  rw [h]

/-- The element loop succeeds on a fully buffered run of frames. -/
theorem parseElems_ok (vs : List Bytes) : ∀ (ts : List (Nat × Nat)) (A B : Bytes)
    (acc : List Bytes) (buf : Bytes),
    vs.length = ts.length →
    buf = A ++ (zipFrames vs ts).flatten ++ B →
    parseElems buf vs.length (A.length : Int) acc
      = some (acc ++ vs, ((A.length + (zipFrames vs ts).flatten.length : Nat) : Int)) := by
  induction vs with
  | nil =>
    intro ts A B acc buf h hbuf
    simp [parseElems, zipFrames]
  | cons v rest ih =>
    intro ts A B acc buf h hbuf
    cases ts with
    | nil => simp at h
    | cons t trest =>
      have hlen : rest.length = trest.length := by simpa using h
      have hflat : (zipFrames (v :: rest) (t :: trest)).flatten
          = bulkFrame v t.1 t.2 ++ (zipFrames rest trest).flatten := by
        simp [zipFrames]
      have hbuf1 : buf = A ++ bulkFrame v t.1 t.2 ++ ((zipFrames rest trest).flatten ++ B) := by
        rw [hbuf, hflat]; simp [List.append_assoc]
      have hbulk := parseBulkAt_ok A v ((zipFrames rest trest).flatten ++ B) t.1 t.2
      rw [← hbuf1] at hbulk
      show parseElems buf (rest.length + 1) (A.length : Int) acc = _
      simp only [parseElems, hbulk]
      have hbuf2 : buf = (A ++ bulkFrame v t.1 t.2) ++ (zipFrames rest trest).flatten ++ B := by
        rw [hbuf1]; simp [List.append_assoc]
      have hrec := ih trest (A ++ bulkFrame v t.1 t.2) B (acc ++ [v]) buf hlen hbuf2
      have hAl : (A ++ bulkFrame v t.1 t.2).length = A.length + (bulkFrame v t.1 t.2).length :=
        List.length_append _ _
      rw [hAl] at hrec
      rw [hrec]
      have e1 : (acc ++ [v]) ++ rest = acc ++ v :: rest := by simp
      have e2 : A.length + (bulkFrame v t.1 t.2).length + (zipFrames rest trest).flatten.length
          = A.length + (zipFrames (v :: rest) (t :: trest)).flatten.length := by
        rw [hflat]
        simp [List.length_append]
        omega
      rw [e1, e2]

/-- `get_command` extracts a fully buffered array-form command, consuming
exactly its bytes, whatever the two terminator-position bytes of each
element are. -/
theorem getCommand_arrayFrameT (vs : List Bytes) (ts : List (Nat × Nat)) (rest : Bytes)
    (h : vs.length = ts.length) :
    getCommand (arrayFrameT vs ts ++ rest) = (some vs, rest) := by
  have hbuf : arrayFrameT vs ts ++ rest
      = (42 :: natAscii vs.length) ++ 13 :: 10 :: ((zipFrames vs ts).flatten ++ rest) := by
    rw [arrayFrameT_eq]; simp [List.append_assoc]
  unfold getCommand
  rw [if_neg ?hne]
  case hne => rw [hbuf]; simp
  rw [if_pos ?hstar]
  case hstar =>
    have h01 := pySlice_natCast (arrayFrameT vs ts ++ rest) 0 1
    norm_num at h01
    rw [h01, hbuf]
    rfl
  unfold parseArray
  have hno13 : findCRLF (42 :: natAscii vs.length) = none := by
    refine findCRLF_none_of_no13 _ (fun c hc => ?_)
    rcases List.mem_cons.1 hc with h1 | h1
    · omega
    · exact no13_natAscii vs.length c h1
  have hfindeq : findCRLF (arrayFrameT vs ts ++ rest)
      = some ((natAscii vs.length).length + 1) := by
    rw [hbuf, findCRLF_app _ _ hno13]
    simp
  have hsl : pySlice (arrayFrameT vs ts ++ rest) 1
      (((natAscii vs.length).length + 1 : Nat) : Int) = natAscii vs.length := by
    have h2 := pySlice_exact [42] (natAscii vs.length)
      (13 :: 10 :: ((zipFrames vs ts).flatten ++ rest))
    have h3 : [42] ++ natAscii vs.length ++ (13 :: 10 :: ((zipFrames vs ts).flatten ++ rest))
        = arrayFrameT vs ts ++ rest := by
      rw [hbuf]; simp
    rw [h3] at h2
    have e1 : ((List.length [42] : Nat) : Int) = (1 : Int) := by norm_num
    have e2 : (List.length [42] + (natAscii vs.length).length : Nat)
        = ((natAscii vs.length).length + 1 : Nat) := by simp [Nat.add_comm]
    rw [e1, e2] at h2
    exact h2
  simp only [hfindeq, hsl, pyInt_natAscii, Int.toNat_natCast]
  have hhdr : (42 :: natAscii vs.length ++ [13, 10]).length
      = (natAscii vs.length).length + 3 := by simp
  have hbuf2 : arrayFrameT vs ts ++ rest
      = (42 :: natAscii vs.length ++ [13, 10]) ++ (zipFrames vs ts).flatten ++ rest := by
    rw [hbuf]; simp [List.append_assoc]
  have hpe := parseElems_ok vs ts (42 :: natAscii vs.length ++ [13, 10]) rest []
    (arrayFrameT vs ts ++ rest) h hbuf2
  rw [hhdr] at hpe
  have epos : (((natAscii vs.length).length + 1 : Nat) : Int) + 2
      = (((natAscii vs.length).length + 3 : Nat) : Int) := by push_cast; ring
  simp only [epos, hpe]
  have hfin : pySlice (arrayFrameT vs ts ++ rest)
      (((natAscii vs.length).length + 3 + (zipFrames vs ts).flatten.length : Nat) : Int)
      (((arrayFrameT vs ts ++ rest).length : Nat) : Int) = rest := by
    have h2 := pySlice_exact ((42 :: natAscii vs.length ++ [13, 10]) ++
      (zipFrames vs ts).flatten) rest []
    have h3 : ((42 :: natAscii vs.length ++ [13, 10]) ++ (zipFrames vs ts).flatten)
        ++ rest ++ [] = arrayFrameT vs ts ++ rest := by
      rw [hbuf2]; simp [List.append_assoc]
    rw [h3] at h2
    have e1 : ((42 :: natAscii vs.length ++ [13, 10]) ++ (zipFrames vs ts).flatten).length
        = (natAscii vs.length).length + 3 + (zipFrames vs ts).flatten.length := by
      simp; omega
    have e2 : ((42 :: natAscii vs.length ++ [13, 10]) ++ (zipFrames vs ts).flatten).length
        + rest.length = (arrayFrameT vs ts ++ rest).length := by
      rw [hbuf2]; simp; omega
    rw [e2, e1] at h2
    exact h2
  rw [hfin]
  simp

/-! ## Parser behaviour on incomplete (partially delivered) frames -/

theorem findCRLF_cons_none (c : Nat) (t : Bytes) (hc : c ≠ 13) (ht : findCRLF t = none) :
    findCRLF (c :: t) = none := by
  simp [findCRLF, hc, ht]

/-- Splitting a stream `d ++ 13 :: 10 :: R` at an arbitrary point: the left
part either stops inside `d ++ [13]`, or engulfs the whole header line. -/
theorem append_split_cases (p s d R : Bytes) (hps : p ++ s = d ++ 13 :: 10 :: R) :
    (p = (d ++ [13]).take p.length ∧ p.length ≤ d.length + 1) ∨
    (∃ q, p = d ++ 13 :: 10 :: q ∧ q ++ s = R) := by
  have hp : p = (d ++ 13 :: 10 :: R).take p.length := by
    rw [← hps, List.take_left]
  rcases le_or_lt p.length (d.length + 1) with hle | hgt
  · left
    refine ⟨?_, hle⟩
    have hsplit : d ++ 13 :: 10 :: R = (d ++ [13]) ++ 10 :: R := by simp
    nth_rewrite 1 [hp]
    rw [hsplit, List.take_append_of_le_length (by simp; omega)]
  · right
    have hsplit : d ++ 13 :: 10 :: R = (d ++ [13, 10]) ++ R := by simp
    have hq : p = (d ++ [13, 10]) ++ R.take (p.length - (d.length + 2)) := by
      nth_rewrite 1 [hp]
      rw [hsplit, List.take_append_eq_append_take,
          List.take_of_length_le (by simp; omega)]
      congr 2
      simp
    refine ⟨R.take (p.length - (d.length + 2)), by simpa using hq, ?_⟩
    have h2 : (d ++ [13, 10]) ++ (R.take (p.length - (d.length + 2)) ++ s)
        = (d ++ [13, 10]) ++ R := by
      rw [← List.append_assoc, ← hq, hps, hsplit]
    exact List.append_cancel_left h2

/-- A partially delivered bulk frame never parses: the attempt returns
`none`. -/
theorem parseBulkAt_incomplete (A v q s : Bytes)
    (hq : q ++ s = bulkFrame v 13 10) (hs : s ≠ []) :
    parseBulkAt (A ++ q) (A.length : Int) = none := by
  cases q with
  | nil =>
    unfold parseBulkAt
    rw [if_pos]
    left
    simp
  | cons b q2 =>
    have hb : b = 36 ∧ q2 ++ s = natAscii v.length ++ 13 :: 10 :: (v ++ [13, 10]) := by
      have := hq
      simp only [bulkFrame, List.cons_append, List.cons.injEq] at this
      refine ⟨this.1, ?_⟩
      rw [this.2]
      simp
    obtain ⟨rfl, hq2⟩ := hb
    have hguard : ¬((A.length : Int) ≥ ((A ++ 36 :: q2).length : Int) ∨
        pySlice (A ++ 36 :: q2) (A.length : Int) ((A.length : Int) + 1) ≠ [36]) := by
      push_neg
      constructor
      · simp
      · have h2 := pySlice_exact A [36] q2
        have h3 : A ++ [36] ++ q2 = A ++ 36 :: q2 := by simp
        rw [h3] at h2
        simpa using h2
    rcases append_split_cases q2 s (natAscii v.length) (v ++ [13, 10]) hq2 with
      ⟨htake, hlen⟩ | ⟨w, hw, hws⟩
    · -- cut inside the length line: no CRLF found
      have hfind : pyFindFrom (A ++ 36 :: q2) (A.length : Int) = none := by
        rw [pyFindFrom_natCast _ _ (by simp)]
        have hdrop : (A ++ 36 :: q2).drop A.length = 36 :: q2 := by
          have := List.drop_left A (36 :: q2)
          simpa using this
        rw [hdrop, findCRLF_cons_none 36 q2 (by omega) ?_]
        · simp
        · rw [htake]
          exact findCRLF_none_take _ (no13_natAscii v.length) _
      unfold parseBulkAt
      rw [if_neg hguard, hfind]
    · -- full length line present, payload or terminator cut short
      have hwlen : w.length ≤ v.length + 1 := by
        have : (w ++ s).length = (v ++ [13, 10]).length := by rw [hws]
        simp at this
        rcases s with _ | ⟨c, s2⟩
        · exact absurd rfl hs
        · simp at this; omega
      -- buffer = A ++ 36 :: d ++ 13 :: 10 :: w
      have hbufq : A ++ 36 :: q2 = (A ++ [36]) ++ natAscii v.length ++ (13 :: 10 :: w) := by
        rw [hw]; simp
      have hfind : pyFindFrom (A ++ 36 :: q2) (A.length : Int)
          = some (A.length + ((natAscii v.length).length + 1)) := by
        rw [pyFindFrom_natCast _ _ (by simp)]
        have hdrop : (A ++ 36 :: q2).drop A.length = (36 :: natAscii v.length) ++ 13 :: 10 :: w := by
          have := List.drop_left A (36 :: q2)
          rw [hw] at this ⊢
          simpa using this
        rw [hdrop, findCRLF_app (36 :: natAscii v.length) w ?_]
        · simp [Nat.add_comm]
        · refine findCRLF_none_of_no13 _ (fun c hc => ?_)
          rcases List.mem_cons.1 hc with h1 | h1
          · omega
          · exact no13_natAscii v.length c h1
      have hsl : pySlice (A ++ 36 :: q2) ((A.length : Int) + 1)
          ((A.length + ((natAscii v.length).length + 1) : Nat) : Int) = natAscii v.length := by
        have h2 := pySlice_exact (A ++ [36]) (natAscii v.length) (13 :: 10 :: w)
        rw [← hbufq] at h2
        have e1 : ((A ++ [36]).length : Int) = (A.length : Int) + 1 := by simp
        have e2 : (A ++ [36]).length + (natAscii v.length).length
            = A.length + ((natAscii v.length).length + 1) := by simp; omega
        rw [e1, e2] at h2
        exact h2
      unfold parseBulkAt
      rw [if_neg hguard]
      simp only [hfind, hsl, pyInt_natAscii]
      rw [if_pos]
      have hblen : (A ++ 36 :: q2).length
          = A.length + (natAscii v.length).length + 3 + w.length := by
        rw [hw]; simp; omega
      rw [hblen]
      push_cast
      omega

/-- A partially delivered run of (properly terminated) frames makes the
element loop fail without consuming anything. -/
theorem parseElems_incomplete (vs : List Bytes) : ∀ (A q s : Bytes) (acc : List Bytes),
    q ++ s = (vs.map (fun v => bulkFrame v 13 10)).flatten → s ≠ [] →
    parseElems (A ++ q) vs.length (A.length : Int) acc = none := by
  induction vs with
  | nil =>
    intro A q s acc hq hs
    simp only [List.map_nil, List.flatten_nil] at hq
    exact absurd (List.append_eq_nil.1 hq).2 hs
  | cons v rest ih =>
    intro A q s acc hq hs
    rw [List.map_cons, List.flatten_cons] at hq
    rcases List.append_eq_append_iff.1 hq with ⟨a2, hF, hsplit⟩ | ⟨q2, hqeq, hG⟩
    · rcases eq_or_ne a2 [] with rfl | hne
      · -- exactly the first frame arrived
        rw [List.append_nil] at hF
        rw [List.nil_append] at hsplit
        have hbulk := parseBulkAt_ok A v [] 13 10
        have hbufeq : A ++ bulkFrame v 13 10 ++ [] = A ++ q := by rw [← hF]; simp
        rw [hbufeq] at hbulk
        show parseElems (A ++ q) (rest.length + 1) (A.length : Int) acc = none
        simp only [parseElems, hbulk]
        have hrec := ih (A ++ bulkFrame v 13 10) [] s (acc ++ [v]) (by simpa using hsplit) hs
        have hb2 : (A ++ bulkFrame v 13 10) ++ [] = A ++ q := by rw [← hF]; simp
        rw [hb2] at hrec
        have hl : ((A ++ bulkFrame v 13 10).length : Int)
            = ((A.length + (bulkFrame v 13 10).length : Nat) : Int) := by simp
        rw [hl] at hrec
        exact hrec
      · -- the first frame is cut short
        have hnone := parseBulkAt_incomplete A v q a2 hF.symm hne
        show parseElems (A ++ q) (rest.length + 1) (A.length : Int) acc = none
        simp only [parseElems, hnone]
    · -- the first frame is complete, the cut lies further right
      have hbulk := parseBulkAt_ok A v q2 13 10
      have hbufeq : A ++ bulkFrame v 13 10 ++ q2 = A ++ q := by rw [hqeq]; simp
      rw [hbufeq] at hbulk
      show parseElems (A ++ q) (rest.length + 1) (A.length : Int) acc = none
      simp only [parseElems, hbulk]
      have hrec := ih (A ++ bulkFrame v 13 10) q2 s (acc ++ [v]) hG.symm hs
      have hb2 : (A ++ bulkFrame v 13 10) ++ q2 = A ++ q := by rw [hqeq]; simp
      rw [hb2] at hrec
      have hl : ((A ++ bulkFrame v 13 10).length : Int)
          = ((A.length + (bulkFrame v 13 10).length : Nat) : Int) := by simp
      rw [hl] at hrec
      exact hrec

/-- While any part of a well-formed array command is missing, `get_command`
returns no command and leaves the buffer exactly as it was. -/
theorem getCommand_encoded_incomplete (vs : List Bytes) (p s : Bytes)
    (hps : p ++ s = arrayOfBulk vs) (hs : s ≠ []) :
    getCommand p = (none, p) := by
  cases p with
  | nil => simp [getCommand]
  | cons b p2 =>
    have hb : b = 42 ∧ p2 ++ s
        = natAscii vs.length ++ 13 :: 10 :: (vs.map (fun v => bulkFrame v 13 10)).flatten := by
      have h0 := hps
      simp only [arrayOfBulk, List.cons_append, List.cons.injEq] at h0
      refine ⟨h0.1, ?_⟩
      rw [h0.2]
      simp
    obtain ⟨rfl, hp2⟩ := hb
    unfold getCommand
    rw [if_neg (by simp)]
    rw [if_pos ?hstar]
    case hstar =>
      have h01 := pySlice_natCast (42 :: p2) 0 1
      norm_num at h01
      rw [h01]
    unfold parseArray
    rcases append_split_cases p2 s (natAscii vs.length) _ hp2 with ⟨htake, hlen⟩ | ⟨q, hq, hqs⟩
    · -- cut inside the `*<n>` header line
      have hfind : findCRLF (42 :: p2) = none := by
        refine findCRLF_cons_none 42 p2 (by omega) ?_
        rw [htake]
        exact findCRLF_none_take _ (no13_natAscii vs.length) _
      simp only [hfind]
    · -- header line complete, cut inside the element frames
      have hfind : findCRLF (42 :: p2) = some ((natAscii vs.length).length + 1) := by
        have hform : (42 :: p2 : Bytes) = (42 :: natAscii vs.length) ++ 13 :: 10 :: q := by
          rw [hq]; simp
        rw [hform, findCRLF_app _ _ ?_]
        · simp
        · refine findCRLF_none_of_no13 _ (fun c hc => ?_)
          rcases List.mem_cons.1 hc with h1 | h1
          · omega
          · exact no13_natAscii vs.length c h1
      have hsl : pySlice (42 :: p2) 1 (((natAscii vs.length).length + 1 : Nat) : Int)
          = natAscii vs.length := by
        have h2 := pySlice_exact [42] (natAscii vs.length) (13 :: 10 :: q)
        have h3 : [42] ++ natAscii vs.length ++ (13 :: 10 :: q) = 42 :: p2 := by
          rw [hq]; simp
        rw [h3] at h2
        have e1 : ((List.length [42] : Nat) : Int) = (1 : Int) := by norm_num
        have e2 : (List.length [42] + (natAscii vs.length).length : Nat)
            = ((natAscii vs.length).length + 1 : Nat) := by simp [Nat.add_comm]
        rw [e1, e2] at h2
        exact h2
      simp only [hfind, hsl, pyInt_natAscii, Int.toNat_natCast]
      have hbufeq : (42 :: p2 : Bytes) = (42 :: natAscii vs.length ++ [13, 10]) ++ q := by
        rw [hq]; simp
      have hpe := parseElems_incomplete vs (42 :: natAscii vs.length ++ [13, 10]) q s [] hqs hs
      rw [← hbufeq] at hpe
      have hlen3 : (42 :: natAscii vs.length ++ [13, 10]).length
          = (natAscii vs.length).length + 3 := by simp
      have epos : (((natAscii vs.length).length + 1 : Nat) : Int) + 2
          = (((42 :: natAscii vs.length ++ [13, 10]).length : Nat) : Int) := by
        rw [hlen3]; push_cast; ring
      rw [epos]
      simp only [hpe]

/-! ## Malformed framing: recovery and stall -/

/-- A malformed (non-`int()`-parsable) array count: `_parse_array` drops the
leading `*` byte and reports no command. -/
theorem getCommand_bad_count (m rest : Bytes) (hm : findCRLF m = none)
    (hint : pyInt m = none) :
    getCommand (42 :: m ++ 13 :: 10 :: rest) = (none, m ++ 13 :: 10 :: rest) := by
  unfold getCommand
  rw [if_neg (by simp)]
  rw [if_pos ?hstar]
  case hstar =>
    have h01 := pySlice_natCast (42 :: m ++ 13 :: 10 :: rest) 0 1
    norm_num at h01
    exact h01
  unfold parseArray
  have hfind : findCRLF (42 :: m ++ 13 :: 10 :: rest) = some (m.length + 1) := by
    have hform : (42 :: m ++ 13 :: 10 :: rest : Bytes) = (42 :: m) ++ 13 :: 10 :: rest := by
      simp
    rw [hform, findCRLF_app _ _ (findCRLF_cons_none 42 m (by omega) hm)]
    simp
  have hsl : pySlice (42 :: m ++ 13 :: 10 :: rest) 1 ((m.length + 1 : Nat) : Int) = m := by
    have h2 := pySlice_exact [42] m (13 :: 10 :: rest)
    have h3 : [42] ++ m ++ (13 :: 10 :: rest) = 42 :: m ++ 13 :: 10 :: rest := by simp
    rw [h3] at h2
    have e1 : ((List.length [42] : Nat) : Int) = (1 : Int) := by norm_num
    have e2 : (List.length [42] + m.length : Nat) = ((m.length + 1 : Nat)) := by
      simp [Nat.add_comm]
    rw [e1, e2] at h2
    exact h2
  simp only [hfind, hsl, hint]
  rfl

/-- A malformed bulk-string length inside an array permanently stalls the
stream: no bytes are consumed and no command is produced, however much data
(`w`) follows. -/
theorem getCommand_bad_bulk_len_stall (k : Nat) (m w : Bytes) (hk : 1 ≤ k)
    (hm : findCRLF m = none) (hint : pyInt m = none) :
    getCommand (42 :: natAscii k ++ 13 :: 10 :: 36 :: m ++ 13 :: 10 :: w)
      = (none, 42 :: natAscii k ++ 13 :: 10 :: 36 :: m ++ 13 :: 10 :: w) := by
  set buf : Bytes := 42 :: natAscii k ++ 13 :: 10 :: 36 :: m ++ 13 :: 10 :: w with hbuf
  unfold getCommand
  rw [if_neg (by simp [hbuf])]
  rw [if_pos ?hstar]
  case hstar =>
    have h01 := pySlice_natCast buf 0 1
    norm_num at h01
    rw [h01, hbuf]
    rfl
  unfold parseArray
  have hfind : findCRLF buf = some ((natAscii k).length + 1) := by
    have hform : buf = (42 :: natAscii k) ++ 13 :: 10 :: (36 :: m ++ 13 :: 10 :: w) := by
      rw [hbuf]; simp
    rw [hform, findCRLF_app _ _ ?_]
    · simp
    · refine findCRLF_none_of_no13 _ (fun c hc => ?_)
      rcases List.mem_cons.1 hc with h1 | h1
      · omega
      · exact no13_natAscii k c h1
  have hsl : pySlice buf 1 (((natAscii k).length + 1 : Nat) : Int) = natAscii k := by
    have h2 := pySlice_exact [42] (natAscii k) (13 :: 10 :: (36 :: m ++ 13 :: 10 :: w))
    have h3 : [42] ++ natAscii k ++ (13 :: 10 :: (36 :: m ++ 13 :: 10 :: w)) = buf := by
      rw [hbuf]; simp
    rw [h3] at h2
    have e1 : ((List.length [42] : Nat) : Int) = (1 : Int) := by norm_num
    have e2 : (List.length [42] + (natAscii k).length : Nat) = ((natAscii k).length + 1 : Nat) := by
      simp [Nat.add_comm]
    rw [e1, e2] at h2
    exact h2
  simp only [hfind, hsl, pyInt_natAscii, Int.toNat_natCast]
  -- the element loop fails on the malformed first element
  obtain ⟨k2, rfl⟩ : ∃ k2, k = k2 + 1 := ⟨k - 1, by omega⟩
  have hhdr : buf = (42 :: natAscii (k2 + 1) ++ [13, 10]) ++ 36 :: m ++ 13 :: 10 :: w := by
    rw [hbuf]; simp
  have hbulknone : parseBulkAt buf (((42 :: natAscii (k2 + 1) ++ [13, 10]).length : Nat) : Int)
      = none := by
    set A : Bytes := 42 :: natAscii (k2 + 1) ++ [13, 10] with hA
    have hguard : ¬((A.length : Int) ≥ (buf.length : Int) ∨
        pySlice buf (A.length : Int) ((A.length : Int) + 1) ≠ [36]) := by
      push_neg
      constructor
      · rw [hhdr]
        simp
        omega
      · have h2 := pySlice_exact A [36] (m ++ 13 :: 10 :: w)
        have h3 : A ++ [36] ++ (m ++ 13 :: 10 :: w) = buf := by rw [hhdr]; simp
        rw [h3] at h2
        simpa using h2
    have hfind2 : pyFindFrom buf (A.length : Int) = some (A.length + (m.length + 1)) := by
      rw [pyFindFrom_natCast _ _ (by rw [hhdr]; simp)]
      have hdrop : buf.drop A.length = (36 :: m) ++ 13 :: 10 :: w := by
        rw [hhdr]
        have := List.drop_left A (36 :: m ++ 13 :: 10 :: w)
        simpa using this
      rw [hdrop, findCRLF_app _ _ (findCRLF_cons_none 36 m (by omega) hm)]
      simp [Nat.add_comm]
    have hsl2 : pySlice buf ((A.length : Int) + 1) ((A.length + (m.length + 1) : Nat) : Int)
        = m := by
      have h2 := pySlice_exact (A ++ [36]) m (13 :: 10 :: w)
      have h3 : (A ++ [36]) ++ m ++ (13 :: 10 :: w) = buf := by rw [hhdr]; simp
      rw [h3] at h2
      have e1 : ((A ++ [36]).length : Int) = (A.length : Int) + 1 := by simp
      have e2 : (A ++ [36]).length + m.length = A.length + (m.length + 1) := by simp; omega
      rw [e1, e2] at h2
      exact h2
    unfold parseBulkAt
    rw [if_neg hguard]
    simp only [hfind2, hsl2, hint]
  have hpos : (((natAscii (k2 + 1)).length + 1 : Nat) : Int) + 2
      = (((42 :: natAscii (k2 + 1) ++ [13, 10]).length : Nat) : Int) := by
    simp
    ring
  rw [hpos]
  show (match parseElems buf (k2 + 1) _ [] with
        | none => (none, buf)
        | some (args, pos) => (some args, pySlice buf pos (buf.length : Int))) = (none, buf)
  simp only [parseElems, hbulknone]

/-! ## Encoder output fed back into the decoder (round-trip behaviour) -/

theorem pySplitGo_no_ws (l : Bytes) : ∀ cur : Bytes, l ≠ [] →
    (∀ c ∈ l, isPyWs c = false) → pySplitGo l cur = [cur.reverse ++ l] := by
  induction l with
  | nil => intro cur h; exact absurd rfl h
  | cons c r ih =>
    intro cur _ hws
    have hc : isPyWs c = false := hws c (by simp)
    show (if isPyWs c then _ else pySplitGo r (c :: cur)) = _
    rw [hc]
    simp only [Bool.false_eq_true, if_false]
    cases hr : r with
    | nil =>
      show (if (c :: cur : Bytes) = [] then [] else [(c :: cur).reverse]) = _
      simp
    | cons b r2 =>
      rw [← hr, ih (c :: cur) (by rw [hr]; simp) (fun x hx => hws x (by simp [hx]))]
      simp

theorem pySplit_single (l : Bytes) (hl : l ≠ []) (h : ∀ c ∈ l, isPyWs c = false) :
    pySplit l = [l] := by
  unfold pySplit
  rw [pySplitGo_no_ws l [] hl h]
  simp

/-- Feeding an encoded bulk reply back to `get_command` parses it as an
INLINE line: the result is the single `$<len>` token, and the payload stays
in the buffer. -/
theorem getCommand_bulkReply (v : Bytes) :
    getCommand (bulkReply (some v)) = (some [36 :: natAscii v.length], v ++ [13, 10]) := by
  have hform : bulkReply (some v) = (36 :: natAscii v.length) ++ 13 :: 10 :: (v ++ [13, 10]) := by
    simp [bulkReply]
  unfold getCommand
  rw [if_neg (by simp [bulkReply])]
  rw [if_neg ?hno]
  case hno =>
    have h01 := pySlice_natCast (bulkReply (some v)) 0 1
    norm_num at h01
    rw [h01]
    simp [bulkReply]
  unfold parseInline
  have hfind : findCRLF (bulkReply (some v)) = some ((natAscii v.length).length + 1) := by
    rw [hform, findCRLF_app _ _ ?_]
    · simp
    · refine findCRLF_none_of_no13 _ (fun c hc => ?_)
      rcases List.mem_cons.1 hc with h1 | h1
      · omega
      · exact no13_natAscii v.length c h1
  simp only [hfind]
  have htake : (bulkReply (some v)).take ((natAscii v.length).length + 1)
      = 36 :: natAscii v.length := by
    rw [hform]
    have := List.take_left (36 :: natAscii v.length) (13 :: 10 :: (v ++ [13, 10]))
    simpa using this
  have hdrop : (bulkReply (some v)).drop ((natAscii v.length).length + 1 + 2)
      = v ++ [13, 10] := by
    rw [hform]
    have h2 : (36 :: natAscii v.length).length + 2 = (natAscii v.length).length + 1 + 2 := by
      simp
    rw [← h2, List.drop_append_eq_append_drop, List.drop_eq_nil_of_le (by simp)]
    simp
  rw [htake, hdrop]
  have hsplit : pySplit (36 :: natAscii v.length) = [36 :: natAscii v.length] := by
    refine pySplit_single _ (by simp) (fun c hc => ?_)
    rcases List.mem_cons.1 hc with h1 | h1
    · subst h1; rfl
    · have := natAscii_digits v.length c h1
      simp only [isPyWs, Bool.or_eq_false_iff, decide_eq_false_iff_not]
      omega
  rw [hsplit]

/-! ## Claim theorems: the wire protocol decoder (C1, C4, C8, C10) -/

/-- C1: for every well-formed array-form command, a buffer holding any proper
prefix of its bytes yields "no command yet" and is left exactly unchanged
(the same bytes are re-attempted later), while the buffer holding all of its
bytes (plus whatever follows) yields exactly the command vector, consuming
exactly the command's bytes.  Together these give: draining after any split
of the bytes into successive `feed()` chunks produces the same command vector
as one contiguous write. -/
theorem resp_split_reassembly (args : List Bytes) :
    (∀ p s : Bytes, p ++ s = arrayOfBulk args → s ≠ [] → getCommand p = (none, p)) ∧
    (∀ rest : Bytes, getCommand (arrayOfBulk args ++ rest) = (some args, rest)) := by
  refine ⟨fun p s hps hs => getCommand_encoded_incomplete args p s hps hs, fun rest => ?_⟩
  rw [arrayOfBulk_eq_arrayFrameT]
  exact getCommand_arrayFrameT args _ rest (by simp)

theorem resp_split_reassembly_witness :
    getCommand (bytes "*1\r\n$4\r\nPING") = (none, bytes "*1\r\n$4\r\nPING") ∧
    getCommand (bytes "*1\r\n$4\r\nPING\r\n") = (some [bytes "PING"], []) := by
  constructor
  · exact (resp_split_reassembly [bytes "PING"]).1 (bytes "*1\r\n$4\r\nPING") (bytes "\r\n")
      (by decide) (by decide)
  · have h := (resp_split_reassembly [bytes "PING"]).2 []
    have e : arrayOfBulk [bytes "PING"] ++ [] = bytes "*1\r\n$4\r\nPING\r\n" := by decide
    rw [e] at h
    exact h

/-- C10: the decoder takes exactly the declared number of payload bytes of a
bulk-string element and skips the following two bytes without checking them:
an array frame whose elements end in ANY two bytes parses to the same command
vector, consuming the same bytes, as the properly `\r\n`-terminated frame. -/
theorem bulk_terminator_unchecked (args : List Bytes) (ts : List (Nat × Nat)) (rest : Bytes)
    (h : args.length = ts.length) :
    getCommand (arrayFrameT args ts ++ rest) = (some args, rest) ∧
    getCommand (arrayOfBulk args ++ rest) = (some args, rest) := by
  refine ⟨getCommand_arrayFrameT args ts rest h, ?_⟩
  rw [arrayOfBulk_eq_arrayFrameT]
  exact getCommand_arrayFrameT args _ rest (by simp)

theorem bulk_terminator_unchecked_witness :
    getCommand (bytes "*1\r\n$2\r\nokXY") = (some [bytes "ok"], []) ∧
    getCommand (bytes "*1\r\n$2\r\nok\r\n") = (some [bytes "ok"], []) := by
  have h := bulk_terminator_unchecked [bytes "ok"] [(88, 89)] [] (by decide)
  constructor
  · have e : arrayFrameT [bytes "ok"] [(88, 89)] ++ [] = bytes "*1\r\n$2\r\nokXY" := by decide
    rw [e] at h
    exact h.1
  · have e : arrayOfBulk [bytes "ok"] ++ [] = bytes "*1\r\n$2\r\nok\r\n" := by decide
    have h2 := h.2
    rw [e] at h2
    exact h2

/-- C4 counterexample: with a malformed bulk-string length in the buffer,
the decoder does NOT resynchronize: the buffer is returned unchanged and no
command is produced, even after the bytes of a complete further command
arrive — contradicting the claim that parsing makes progress past a
malformed bulk-string length prefix. -/
theorem framing_error_recovery_cex :
    getCommand (bytes "*1\r\n$x\r\n") = (none, bytes "*1\r\n$x\r\n") ∧
    getCommand (bytes "*1\r\n$x\r\n" ++ bytes "$3\r\nfoo\r\n")
      = (none, bytes "*1\r\n$x\r\n" ++ bytes "$3\r\nfoo\r\n") := by decide

/-- C4 (amended): a malformed array COUNT is recovered locally — the decoder
drops the offending leading `*` byte, leaving the remaining bytes to be
re-parsed (e.g. as an inline command).  A malformed bulk-string LENGTH inside
an array is NOT recovered: whatever data `w` follows, no byte is consumed and
no command is ever produced from that buffer — the stream stalls permanently
instead of resynchronizing. -/
theorem framing_error_recovery (m w rest : Bytes) (k : Nat) (hk : 1 ≤ k)
    (hm : findCRLF m = none) (hint : pyInt m = none) :
    getCommand (42 :: m ++ 13 :: 10 :: rest) = (none, m ++ 13 :: 10 :: rest) ∧
    getCommand (42 :: natAscii k ++ 13 :: 10 :: 36 :: m ++ 13 :: 10 :: w)
      = (none, 42 :: natAscii k ++ 13 :: 10 :: 36 :: m ++ 13 :: 10 :: w) :=
  ⟨getCommand_bad_count m rest hm hint, getCommand_bad_bulk_len_stall k m w hk hm hint⟩

theorem framing_error_recovery_witness :
    getCommand (bytes "*x\r\nPING\r\n") = (none, bytes "x\r\nPING\r\n") ∧
    getCommand (bytes "*1\r\n$x\r\n") = (none, bytes "*1\r\n$x\r\n") := by
  have h := framing_error_recovery [120] [] (bytes "PING\r\n") 1 (by decide) (by decide)
    (by decide)
  constructor
  · have e1 : (42 :: [120] ++ 13 :: 10 :: bytes "PING\r\n") = bytes "*x\r\nPING\r\n" := by
      decide
    have e2 : ([120] ++ 13 :: 10 :: bytes "PING\r\n") = bytes "x\r\nPING\r\n" := by decide
    have h1 := h.1
    rw [e1, e2] at h1
    exact h1
  · have e1 : (42 :: natAscii 1 ++ 13 :: 10 :: 36 :: [120] ++ 13 :: 10 :: ([] : Bytes))
        = bytes "*1\r\n$x\r\n" := by decide
    have h2 := h.2
    rw [e1] at h2
    exact h2

/-- C8 counterexample: feeding an encoded bulk reply (`$3\r\nbar\r\n`) to the
decoder does not recover the value: `get_command` treats it as an INLINE line
and yields the `$3` length token, leaving `bar\r\n` in the buffer — the
round-trip fails for the bulk shape. -/
theorem reply_roundtrip_cex :
    getCommand (bulkReply (some (bytes "bar"))) = (some [bytes "$3"], bytes "bar\r\n") ∧
    [bytes "$3"] ≠ [bytes "bar"] := by decide

/-- C8 (amended): the array-of-bulk-strings reply shape — exactly the KEYS
reply encoding — round-trips through the decoder, recovering the original
values and consuming exactly the reply's bytes.  A bulk reply does NOT
round-trip through `get_command` (it is parsed as an inline line yielding the
single `$<len>` token, with the payload left in the buffer); the bulk-string
ELEMENT parser at offset 0, however, recovers the value exactly. -/
theorem reply_roundtrip (keys : List Bytes) (v rest : Bytes) :
    getCommand (arrayOfBulk keys ++ rest) = (some keys, rest) ∧
    getCommand (bulkReply (some v)) = (some [36 :: natAscii v.length], v ++ [13, 10]) ∧
    parseBulkAt (bulkReply (some v)) 0 = some (v, ((bulkReply (some v)).length : Int)) := by
  refine ⟨?_, getCommand_bulkReply v, ?_⟩
  · rw [arrayOfBulk_eq_arrayFrameT]
    exact getCommand_arrayFrameT keys _ rest (by simp)
  · have h := parseBulkAt_ok [] v [] 13 10
    have e : ([] : Bytes) ++ bulkFrame v 13 10 ++ [] = bulkReply (some v) := by
      simp [bulkFrame, bulkReply]
    rw [e] at h
    have e2 : ((List.length ([] : Bytes) : Nat) : Int) = (0 : Int) := by norm_num
    rw [e2] at h
    have e3 : (List.length ([] : Bytes) + (bulkFrame v 13 10).length : Nat)
        = (bulkReply (some v)).length := by
      simp [bulkFrame, bulkReply]
    rw [e3] at h
    exact h

/-! ## Dispatcher branch lemmas -/

theorem handleCommand_TTL (now : ℚ) (st : Store) (k : Bytes) :
    handleCommand now st [bytes "TTL", k]
      = match storeGet? st k with
        | none => .ok (integerReply (-2), st)
        | some (_, none) => .ok (integerReply (-1), st)
        | some (_, some ea) =>
          if pyTrunc (ea - now) < 0 then .ok (integerReply (-2), storeDel st k)
          else .ok (integerReply (pyTrunc (ea - now)), st) := rfl

theorem handleCommand_GET (now : ℚ) (st : Store) (k : Bytes) :
    handleCommand now st [bytes "GET", k]
      = .ok (bulkReply (getValue now st k).1, (getValue now st k).2) := rfl

theorem handleCommand_EXPIRE (now : ℚ) (st : Store) (k sstr : Bytes) :
    handleCommand now st [bytes "EXPIRE", k, sstr]
      = match pyInt sstr with
        | none => .ok (errorReply (bytes "ERR value is not an integer"), st)
        | some secs =>
          if (storeGet? st k).isNone then .ok (integerReply 0, st)
          else if (isExpired now st k).1 then .ok (integerReply 0, (isExpired now st k).2)
          else .ok (integerReply 1, storeSet (isExpired now st k).2 k
              (((storeGet? (isExpired now st k).2 k).getD ([], none)).1,
                some (now + (secs : ℚ)))) := rfl

theorem handleCommand_KEYS (now : ℚ) (st : Store) :
    handleCommand now st [bytes "KEYS"]
      = match keysFilter now st.length (st.map Prod.fst) st with
        | .error e => .error e
        | .ok (ks, st') => .ok (arrayOfBulk ks, st') := rfl

theorem handleCommand_SET3 (now : ℚ) (st : Store) (a0 k v : Bytes) (extra : List Bytes)
    (h : upper a0 = bytes "SET") :
    handleCommand now st (a0 :: k :: v :: extra)
      = .ok (simpleString (bytes "OK"), storeSet st k (v, none)) := by
  have hlen3 : ¬((a0 :: k :: v :: extra).length < 3) := by
    simp only [List.length_cons]
    omega
  simp only [handleCommand, h]
  rw [if_pos trivial, if_neg hlen3, if_neg (show ¬(bytes "SET" = bytes "PING") by decide)]
  rfl

theorem handleCommand_SET_short (now : ℚ) (st : Store) (a0 : Bytes) (rest : List Bytes)
    (h : upper a0 = bytes "SET") (hlen : rest.length < 2) :
    handleCommand now st (a0 :: rest)
      = .ok (errorReply (bytes "ERR wrong number of arguments for "
          ++ [39] ++ bytes "SET" ++ [39]), st) := by
  have hlen3 : (a0 :: rest).length < 3 := by
    simp only [List.length_cons]
    omega
  simp only [handleCommand, h]
  rw [if_pos trivial, if_pos hlen3, if_neg (show ¬(bytes "SET" = bytes "PING") by decide)]

/-! ## Store and lazy-expiry lemmas -/

theorem storeGet?_mem (st : Store) (k : Bytes) (e : Entry) (h : storeGet? st k = some e) :
    (k, e) ∈ st := by
  induction st with
  | nil => simp [storeGet?] at h
  | cons p r ih =>
    obtain ⟨k', e'⟩ := p
    simp only [storeGet?] at h
    by_cases hk : k' = k
    · rw [if_pos hk] at h
      injection h with h
      subst hk
      subst h
      exact List.mem_cons_self _ _
    · rw [if_neg hk] at h
      exact List.mem_cons_of_mem _ (ih h)

theorem storeGet?_isSome_of_mem (st : Store) (k : Bytes) (e : Entry) (h : (k, e) ∈ st) :
    (storeGet? st k).isSome := by
  induction st with
  | nil => simp at h
  | cons p r ih =>
    obtain ⟨k', e'⟩ := p
    rcases List.mem_cons.1 h with heq | hmem
    · injection heq with h1 h2
      simp [storeGet?, h1]
    · simp only [storeGet?]
      by_cases hk : k' = k
      · simp [hk]
      · rw [if_neg hk]
        exact ih hmem

theorem storeDel_length (st : Store) (k : Bytes) (e : Entry)
    (h : storeGet? st k = some e) : (storeDel st k).length + 1 = st.length := by
  induction st with
  | nil => simp [storeGet?] at h
  | cons p r ih =>
    obtain ⟨k', e'⟩ := p
    simp only [storeGet?] at h
    by_cases hk : k' = k
    · simp [storeDel, hk]
    · rw [if_neg hk] at h
      simp only [storeDel, if_neg hk, List.length_cons]
      rw [← ih h]

theorem isExpired_of_bad (now : ℚ) (st : Store) (k v : Bytes) (ea : Option ℚ)
    (hg : storeGet? st k = some (v, ea)) (ht : truthyPast now ea = true) :
    isExpired now st k = (true, storeDel st k) := by
  unfold isExpired
  rw [hg]
  simp [ht]

theorem isExpired_of_good (now : ℚ) (st : Store) (k : Bytes)
    (h : ∀ v ea, storeGet? st k = some (v, ea) → truthyPast now ea = false) :
    isExpired now st k = ((storeGet? st k).isNone, st) := by
  unfold isExpired
  cases hg : storeGet? st k with
  | none => rfl
  | some p =>
    obtain ⟨v, ea⟩ := p
    simp [h v ea hg]

/-! ## KEYS iteration lemmas -/

theorem keysFilter_break (now : ℚ) (orig : Nat) (ks : List Bytes) (st : Store)
    (h : st.length ≠ orig) : keysFilter now orig ks st = .error .runtimeError := by
  cases ks <;> simp [keysFilter, h]

theorem keysFilter_clean (now : ℚ) (orig : Nat) (ks : List Bytes) : ∀ st : Store,
    st.length = orig →
    (∀ k ∈ ks, ∀ v ea, storeGet? st k = some (v, ea) → truthyPast now ea = false) →
    keysFilter now orig ks st
      = .ok (ks.filter (fun k => (storeGet? st k).isSome), st) := by
  induction ks with
  | nil =>
    intro st hlen _
    simp [keysFilter, hlen]
  | cons k ks ih =>
    intro st hlen hgood
    have he : isExpired now st k = ((storeGet? st k).isNone, st) :=
      isExpired_of_good now st k (fun v ea hg => hgood k (by simp) v ea hg)
    show (if st.length ≠ orig then _ else _) = _
    rw [if_neg (by omega)]
    simp only [he]
    rw [ih st hlen (fun k2 hk2 => hgood k2 (by simp [hk2]))]
    cases hg : storeGet? st k <;> simp [List.filter_cons, hg]

theorem keysFilter_bad (now : ℚ) (orig : Nat) (ks : List Bytes) : ∀ st : Store,
    st.length = orig →
    (∃ k ∈ ks, ∃ v ea, storeGet? st k = some (v, ea) ∧ truthyPast now ea = true) →
    keysFilter now orig ks st = .error .runtimeError := by
  induction ks with
  | nil =>
    intro st _ hbad
    simp at hbad
  | cons k ks ih =>
    intro st hlen hbad
    show (if st.length ≠ orig then _ else _) = _
    rw [if_neg (by omega)]
    by_cases hk : ∃ v ea, storeGet? st k = some (v, ea) ∧ truthyPast now ea = true
    · obtain ⟨v, ea, hg, ht⟩ := hk
      have he : isExpired now st k = (true, storeDel st k) :=
        isExpired_of_bad now st k v ea hg ht
      simp only [he]
      have hdl : (storeDel st k).length + 1 = st.length := storeDel_length st k _ hg
      rw [keysFilter_break now orig ks (storeDel st k) (by omega)]
    · have he : isExpired now st k = ((storeGet? st k).isNone, st) := by
        refine isExpired_of_good now st k (fun v ea hg => ?_)
        by_contra hcon
        exact hk ⟨v, ea, hg, by simpa using hcon⟩
      simp only [he]
      obtain ⟨k', hk', v, ea, hg, ht⟩ := hbad
      rcases List.mem_cons.1 hk' with rfl | hmem
      · exact absurd ⟨v, ea, hg, ht⟩ hk
      · rw [ih st hlen ⟨k', hmem, v, ea, hg, ht⟩]

/-! ## Claim theorems: TTL, lazy expiry, EXPIRE, SET, dispatcher totality -/

theorem pyTrunc_eq_floor (q : ℚ) (h : 0 ≤ q) : pyTrunc q = ⌊q⌋ := by
  unfold pyTrunc
  rw [Rat.floor_def, Int.tdiv_eq_ediv (Rat.num_nonneg.2 h) (Int.natCast_nonneg _)]

/-- C2 counterexample: a key whose expiry equals the current time (remaining
time 0 ≤ 0) is NOT deleted and TTL replies `:0`, not `-2` as the claim
demands for remaining ≤ 0. -/
theorem ttl_behavior_cex :
    handleCommand 10 [(bytes "k", (bytes "v", some 10))] [bytes "TTL", bytes "k"]
      = .ok (bytes ":0\r\n", [(bytes "k", (bytes "v", some 10))]) ∧
    bytes ":0\r\n" ≠ integerReply (-2) := by
  constructor
  · with_unfolding_all decide
  · decide

/-- C2 (amended): TTL returns -2 for a missing key and -1 for a key with no
expiry.  The remaining time is the Python `int()` truncation (toward zero)
of `expires_at - now`: when that truncation is negative (at least one full
second past expiry) the key is deleted and -2 returned; otherwise the
truncated value is returned — it equals the floor of the remaining time
whenever the remaining time is nonnegative, but for remaining time in
(-1, 0] it is 0 and the expired key is retained rather than deleted. -/
theorem ttl_behavior (now : ℚ) (st : Store) (k v : Bytes) (t : ℚ) :
    (storeGet? st k = none →
      handleCommand now st [bytes "TTL", k] = .ok (integerReply (-2), st)) ∧
    (storeGet? st k = some (v, none) →
      handleCommand now st [bytes "TTL", k] = .ok (integerReply (-1), st)) ∧
    (storeGet? st k = some (v, some t) → pyTrunc (t - now) < 0 →
      handleCommand now st [bytes "TTL", k] = .ok (integerReply (-2), storeDel st k)) ∧
    (storeGet? st k = some (v, some t) → 0 ≤ pyTrunc (t - now) →
      handleCommand now st [bytes "TTL", k]
        = .ok (integerReply (pyTrunc (t - now)), st)) ∧
    (0 ≤ t - now → pyTrunc (t - now) = ⌊t - now⌋) := by
  refine ⟨fun hg => ?_, fun hg => ?_, fun hg hneg => ?_, fun hg hpos => ?_,
    fun h0 => pyTrunc_eq_floor _ h0⟩ <;> rw [handleCommand_TTL]
  · simp only [hg]
  · simp only [hg]
  · simp only [hg, if_pos hneg]
  · simp only [hg, if_neg (not_lt.2 hpos)]

theorem ttl_behavior_witness :
    handleCommand 0 [] [bytes "TTL", bytes "k"] = .ok (bytes ":-2\r\n", []) := by
  have h := (ttl_behavior 0 [] (bytes "k") (bytes "v") 0).1 rfl
  exact h.trans (by decide)

/-- C3 counterexample: an entry half a second past its expiry (expiry 19/2,
time 10) is observed by TTL, which returns `:0` computed from it and leaves
it in the store — the expired entry is not removed. -/
theorem lazy_expiry_invariant_cex :
    handleCommand 10 [(bytes "k", (bytes "v", some (19/2)))] [bytes "TTL", bytes "k"]
      = .ok (bytes ":0\r\n", [(bytes "k", (bytes "v", some (19/2)))]) ∧
    (19/2 : ℚ) < 10 := by
  constructor
  · with_unfolding_all decide
  · norm_num

/-- C3 (amended): GET removes an observed entry whose expiry is nonzero and
strictly past (returning nil); TTL removes an observed entry only when the
truncated remaining time is negative, and within (-1, 0] of expiry returns 0
computed from the expired entry left in the store; KEYS either returns all
keys unchanged (when no entry has a nonzero past expiry) or raises
RuntimeError as soon as a purge would occur — it never returns a result
computed from a nonzero-past-expiry entry.  A zero expiry timestamp is
treated as "no expiry" throughout (Python truthiness). -/
theorem lazy_expiry_invariant (now : ℚ) (st : Store) (k v : Bytes) (t : ℚ) :
    (storeGet? st k = some (v, some t) → t ≠ 0 → now > t →
      handleCommand now st [bytes "GET", k] = .ok (bulkReply none, storeDel st k)) ∧
    (storeGet? st k = some (v, some t) → pyTrunc (t - now) < 0 →
      handleCommand now st [bytes "TTL", k] = .ok (integerReply (-2), storeDel st k)) ∧
    (storeGet? st k = some (v, some t) → 0 ≤ pyTrunc (t - now) →
      handleCommand now st [bytes "TTL", k]
        = .ok (integerReply (pyTrunc (t - now)), st)) ∧
    ((∀ p ∈ st, truthyPast now p.2.2 = false) →
      handleCommand now st [bytes "KEYS"] = .ok (arrayOfBulk (st.map Prod.fst), st)) ∧
    ((∃ k2 v2 ea2, storeGet? st k2 = some (v2, ea2) ∧ truthyPast now ea2 = true) →
      handleCommand now st [bytes "KEYS"] = .error .runtimeError) := by
  refine ⟨fun hg ht0 hnow => ?_, fun hg hneg => ?_, fun hg hpos => ?_,
    fun hclean => ?_, fun hbad => ?_⟩
  · have ht : truthyPast now (some t) = true := by
      simp only [truthyPast, decide_eq_true_eq]
      exact ⟨ht0, hnow⟩
    have he := isExpired_of_bad now st k v (some t) hg ht
    rw [handleCommand_GET]
    unfold getValue
    simp only [he]
    rfl
  · rw [handleCommand_TTL]
    simp only [hg, if_pos hneg]
  · rw [handleCommand_TTL]
    simp only [hg, if_neg (not_lt.2 hpos)]
  · rw [handleCommand_KEYS]
    have hclean2 : ∀ k2 ∈ st.map Prod.fst, ∀ v2 ea2,
        storeGet? st k2 = some (v2, ea2) → truthyPast now ea2 = false := by
      intro k2 _ v2 ea2 hg2
      exact hclean (k2, (v2, ea2)) (storeGet?_mem st k2 _ hg2)
    rw [keysFilter_clean now st.length (st.map Prod.fst) st rfl hclean2]
    have hfil : (st.map Prod.fst).filter (fun k2 => (storeGet? st k2).isSome)
        = st.map Prod.fst := by
      refine List.filter_eq_self.2 (fun k2 hk2 => ?_)
      obtain ⟨p, hp, rfl⟩ := List.mem_map.1 hk2
      exact storeGet?_isSome_of_mem st p.1 p.2 (by simpa using hp)
    rw [hfil]
  · rw [handleCommand_KEYS]
    obtain ⟨k2, v2, ea2, hg2, ht2⟩ := hbad
    have hmem : k2 ∈ st.map Prod.fst :=
      List.mem_map.2 ⟨(k2, (v2, ea2)), storeGet?_mem st k2 _ hg2, rfl⟩
    rw [keysFilter_bad now st.length (st.map Prod.fst) st rfl
      ⟨k2, hmem, v2, ea2, hg2, ht2⟩]

theorem lazy_expiry_invariant_witness :
    handleCommand 0 [] [bytes "KEYS"] = .ok (bytes "*0\r\n", []) := by
  have h := (lazy_expiry_invariant 0 [] (bytes "k") (bytes "v") 0).2.2.2.1 (by simp)
  exact h.trans (by decide)

/-- C5 counterexample: a key whose stored expiry timestamp is 0 is already
expired at time 10, yet EXPIRE re-arms it (Python treats the 0 as falsy):
the reply is `:1` and the entry's expiry is modified to 110, where the claim
demands reply 0 and no modification. -/
theorem expire_behavior_cex :
    handleCommand 10 [(bytes "k", (bytes "v", some 0))]
        [bytes "EXPIRE", bytes "k", bytes "100"]
      = .ok (bytes ":1\r\n", [(bytes "k", (bytes "v", some 110))]) ∧
    (0 : ℚ) < 10 := by
  constructor
  · with_unfolding_all decide
  · norm_num

/-- C5 (amended): a non-integer seconds argument yields the "not an integer"
error with the store untouched; a missing key yields 0 with the store
untouched; a key whose expiry is nonzero and strictly past yields 0, the
sole store effect being the lazy deletion of that expired entry; otherwise
(live key, no expiry, zero expiry timestamp, or expiry not yet strictly
past) the entry's expiry is set to now + secs with its value preserved and
the reply is 1 — secs may be zero or negative. -/
theorem expire_behavior (now : ℚ) (st : Store) (k v sstr : Bytes) (ea : Option ℚ)
    (s : Int) :
    (pyInt sstr = none →
      handleCommand now st [bytes "EXPIRE", k, sstr]
        = .ok (errorReply (bytes "ERR value is not an integer"), st)) ∧
    (pyInt sstr = some s → storeGet? st k = none →
      handleCommand now st [bytes "EXPIRE", k, sstr] = .ok (integerReply 0, st)) ∧
    (pyInt sstr = some s → storeGet? st k = some (v, ea) → truthyPast now ea = true →
      handleCommand now st [bytes "EXPIRE", k, sstr]
        = .ok (integerReply 0, storeDel st k)) ∧
    (pyInt sstr = some s → storeGet? st k = some (v, ea) → truthyPast now ea = false →
      handleCommand now st [bytes "EXPIRE", k, sstr]
        = .ok (integerReply 1, storeSet st k (v, some (now + (s : ℚ))))) := by
  refine ⟨fun hint => ?_, fun hint hg => ?_, fun hint hg ht => ?_, fun hint hg ht => ?_⟩
  · rw [handleCommand_EXPIRE]
    simp only [hint]
  · rw [handleCommand_EXPIRE]
    simp only [hint, hg, Option.isNone_none, if_pos]
  · have he := isExpired_of_bad now st k v ea hg ht
    rw [handleCommand_EXPIRE]
    simp only [hint, hg, Option.isNone_some, Bool.false_eq_true, if_false, he]
    rfl
  · have he : isExpired now st k = ((storeGet? st k).isNone, st) := by
      refine isExpired_of_good now st k (fun v2 ea2 hg2 => ?_)
      rw [hg] at hg2
      injection hg2 with hg2
      injection hg2 with h1 h2
      subst h2
      exact ht
    rw [handleCommand_EXPIRE]
    simp only [hint, hg, Option.isNone_some, Bool.false_eq_true, if_false, he]
    rfl

theorem expire_behavior_witness :
    handleCommand 0 [] [bytes "EXPIRE", bytes "k", bytes "abc"]
      = .ok (errorReply (bytes "ERR value is not an integer"), []) :=
  (expire_behavior 0 [] (bytes "k") (bytes "v") (bytes "abc") none 0).1 (by decide)

/-- C6 counterexample: SET with four elements (one extra argument) succeeds
with "+OK" and overwrites the key — it does not return the arity error the
claim requires for argument counts other than three, and the store is
changed. -/
theorem set_dispatch_cex :
    handleCommand 0 [] [bytes "SET", bytes "k", bytes "v", bytes "x"]
      = .ok (bytes "+OK\r\n", [(bytes "k", (bytes "v", none))]) ∧
    bytes "+OK\r\n" ≠ errorReply (bytes "ERR wrong number of arguments for "
      ++ [39] ++ bytes "SET" ++ [39]) ∧
    [(bytes "k", (bytes "v", none))] ≠ ([] : Store) := by
  refine ⟨by decide, by decide, by decide⟩

/-- C6 (amended): when the first element upper-cases to SET, three OR MORE
elements overwrite the entry for the key with the value and no expiry
(clearing any prior TTL; extra arguments are silently ignored) and reply
"+OK"; fewer than three elements produce the arity error naming SET with
the store unchanged. -/
theorem set_dispatch (now : ℚ) (st : Store) (a0 k v : Bytes) (extra rest : List Bytes)
    (h : upper a0 = bytes "SET") :
    handleCommand now st (a0 :: k :: v :: extra)
      = .ok (simpleString (bytes "OK"), storeSet st k (v, none)) ∧
    (rest.length < 2 → handleCommand now st (a0 :: rest)
      = .ok (errorReply (bytes "ERR wrong number of arguments for "
          ++ [39] ++ bytes "SET" ++ [39]), st)) :=
  ⟨handleCommand_SET3 now st a0 k v extra h,
   fun hl => handleCommand_SET_short now st a0 rest h hl⟩

theorem set_dispatch_witness :
    handleCommand 0 [] [bytes "set", bytes "k", bytes "v"]
      = .ok (bytes "+OK\r\n", [(bytes "k", (bytes "v", none))]) := by
  have h := (set_dispatch 0 [] (bytes "set") (bytes "k") (bytes "v") [] [] (by decide)).1
  exact h.trans (by decide)

/-- C9: evaluating the dispatcher at the failing input — KEYS over a store
holding one entry whose expiry (5) is past the current time (10) raises
`RuntimeError: dictionary changed size during iteration` (the lazy purge
deletes from `data` while the comprehension iterates `data.keys()`), so the
dispatcher returns no reply at all instead of a well-formed one. -/
theorem keys_raises_runtime_error :
    handleCommand 10 [(bytes "k", (bytes "v", some 5))] [bytes "KEYS"]
      = .error .runtimeError := by decide

/-! ## Persistence lemmas and claim (C7) -/

theorem storeGet?_eq_none_iff (st : Store) (k : Bytes) :
    storeGet? st k = none ↔ k ∉ st.map Prod.fst := by
  induction st with
  | nil => simp [storeGet?]
  | cons p r ih =>
    obtain ⟨k', e'⟩ := p
    simp only [storeGet?, List.map_cons, List.mem_cons]
    by_cases hk : k' = k
    · simp [hk]
    · rw [if_neg hk, ih]
      constructor
      · intro h1
        rintro (h2 | h2)
        · exact hk h2.symm
        · exact h1 h2
      · intro h1
        exact fun h2 => h1 (Or.inr h2)

theorem storeSet_append (st : Store) (k : Bytes) (e : Entry)
    (h : storeGet? st k = none) : storeSet st k e = st ++ [(k, e)] := by
  induction st with
  | nil => rfl
  | cons p r ih =>
    obtain ⟨k', e'⟩ := p
    simp only [storeGet?] at h
    by_cases hk : k' = k
    · rw [if_pos hk] at h
      exact absurd h (by simp)
    · rw [if_neg hk] at h
      simp only [storeSet, if_neg hk, List.cons_append, List.cons.injEq, true_and]
      exact ih h

theorem saveData_mem (now : ℚ) (st : Store) (k v : Bytes) (ea : Option ℚ) :
    (k, v, ea) ∈ saveData now st ↔ (k, (v, ea)) ∈ st ∧ truthyPast now ea = false := by
  induction st with
  | nil => simp [saveData]
  | cons p r ih =>
    obtain ⟨k', v', ea'⟩ := p
    by_cases ht : truthyPast now ea' = true
    · show (k, v, ea) ∈ (if truthyPast now ea' then saveData now r else _) ↔ _
      rw [if_pos ht, ih]
      simp only [List.mem_cons]
      constructor
      · rintro ⟨h1, h2⟩
        exact ⟨Or.inr h1, h2⟩
      · rintro ⟨h1 | h1, h2⟩
        · injection h1 with e1 e2
          injection e2 with e3 e4
          subst e4
          rw [h2] at ht
          exact absurd ht (by simp)
        · exact ⟨h1, h2⟩
    · have htf : truthyPast now ea' = false := by simpa using ht
      show (k, v, ea) ∈ (if truthyPast now ea' then _
        else (k', v', ea') :: saveData now r) ↔ _
      rw [htf]
      simp only [Bool.false_eq_true, if_false, List.mem_cons, ih]
      constructor
      · rintro (h1 | ⟨h1, h2⟩)
        · injection h1 with e1 e2
          injection e2 with e3 e4
          subst e1; subst e3; subst e4
          exact ⟨by simp, htf⟩
        · exact ⟨Or.inr h1, h2⟩
      · rintro ⟨h1 | h1, h2⟩
        · injection h1 with e1 e2
          injection e2 with e3 e4
          subst e1; subst e3; subst e4
          exact Or.inl rfl
        · exact Or.inr ⟨h1, h2⟩

theorem loadGo_spec (now : ℚ) (recs : List SnapRecord) : ∀ acc : Store,
    (∀ r ∈ recs, storeGet? acc r.1 = none) →
    (recs.map (fun r => r.1)).Nodup →
    loadGo now recs acc
      = acc ++ (recs.filter (fun r => !truthyPast now r.2.2)).map
          (fun r => (r.1, (r.2.1, r.2.2))) := by
  induction recs with
  | nil =>
    intro acc _ _
    simp [loadGo]
  | cons r rs ih =>
    intro acc hfresh hnd
    obtain ⟨k, v, ea⟩ := r
    simp only [List.map_cons, List.nodup_cons] at hnd
    by_cases ht : truthyPast now ea = true
    · show (if truthyPast now ea then loadGo now rs acc else _) = _
      rw [if_pos ht, ih acc (fun r2 h2 => hfresh r2 (by simp [h2])) hnd.2]
      simp [List.filter_cons, ht]
    · have htf : truthyPast now ea = false := by simpa using ht
      show (if truthyPast now ea then _ else loadGo now rs (storeSet acc k (v, ea))) = _
      rw [htf]
      simp only [Bool.false_eq_true, if_false]
      rw [storeSet_append acc k (v, ea) (hfresh (k, v, ea) (by simp))]
      have hfresh2 : ∀ r2 ∈ rs, storeGet? (acc ++ [(k, (v, ea))]) r2.1 = none := by
        intro r2 h2
        rw [storeGet?_eq_none_iff]
        simp only [List.map_append, List.mem_append]
        rintro (hmem | hmem)
        · exact absurd ((storeGet?_eq_none_iff acc r2.1).1
            (hfresh r2 (by simp [h2]))) (by simp [hmem])
        · simp only [List.map_cons, List.map_nil, List.mem_singleton] at hmem
          exact hnd.1 (hmem ▸ List.mem_map.2 ⟨r2, h2, rfl⟩)
      rw [ih (acc ++ [(k, (v, ea))]) hfresh2 hnd.2]
      simp [List.filter_cons, htf]

/-- C7 counterexample: a snapshot record with expiry timestamp 0 — an expiry
clearly in the past at load time 10 — is nevertheless reinserted by
`load_data` (Python truthiness: `if expires_at and now > expires_at` treats 0
as "no expiry"), where the claim requires it to be discarded. -/
theorem persistence_behavior_cex :
    loadData 10 (some [(bytes "k", bytes "v", some 0)])
      = [(bytes "k", (bytes "v", some 0))] ∧
    (0 : ℚ) < 10 := by
  constructor
  · decide
  · norm_num

/-- C7 (amended): an absent snapshot file yields the empty store; saving
writes exactly the entries whose expiry is absent, zero, or not strictly in
the past at save time; loading (snapshot keys are unique, as JSON object
keys) reinserts exactly the records whose expiry is absent, zero, or not
strictly in the past at load time, in order.  The keep-condition is spelled
out in the last conjunct: records at exactly the boundary (expiry = now) and
records with a zero expiry timestamp are kept, not discarded. -/
theorem persistence_behavior (now : ℚ) (st : Store) (recs : List SnapRecord)
    (k v : Bytes) (ea : Option ℚ) :
    loadData now none = [] ∧
    ((k, v, ea) ∈ saveData now st ↔ (k, (v, ea)) ∈ st ∧ truthyPast now ea = false) ∧
    ((recs.map (fun r => r.1)).Nodup →
      loadData now (some recs)
        = (recs.filter (fun r => !truthyPast now r.2.2)).map
            (fun r => (r.1, (r.2.1, r.2.2)))) ∧
    (truthyPast now ea = false ↔ ea = none ∨ ea = some 0 ∨ ∃ t, ea = some t ∧ now ≤ t) := by
  refine ⟨rfl, saveData_mem now st k v ea, fun hnd => ?_, ?_⟩
  · show loadGo now recs [] = _
    rw [loadGo_spec now recs [] (by simp [storeGet?]) hnd]
    simp
  · cases ea with
    | none => simp [truthyPast]
    | some t =>
      simp only [truthyPast, decide_eq_false_iff_not, not_and_or, not_not, not_lt]
      constructor
      · rintro (h | h)
        · exact Or.inr (Or.inl (by rw [h]))
        · exact Or.inr (Or.inr ⟨t, rfl, h⟩)
      · rintro (h | h | ⟨t2, h1, h2⟩)
        · exact absurd h (by simp)
        · injection h with h
          exact Or.inl h
        · injection h1 with h1
          subst h1
          exact Or.inr h2

theorem persistence_behavior_witness :
    loadData 0 (some [(bytes "k", bytes "v", none)]) = [(bytes "k", (bytes "v", none))] := by
  have h := (persistence_behavior 0 [] [(bytes "k", bytes "v", none)] (bytes "k")
    (bytes "v") none).2.2.1 (by decide)
  exact h.trans (by decide)
